import Mathlib

/-!
Verification development for the text-layout core of the canvas repository
(src/text.go and the text package's script itemizer in src/unnamed/part_001).

Modelling conventions:
* Go float64 values are modelled as rationals (no claim under study depends on
  floating-point rounding; comparisons and arithmetic keep the source's shape).
* Go pointers to FontFace / Font values are modelled as natural-number
  identities; pointer equality becomes equality of the identity.
* The external collaborators that are not part of src/ (the shaper, the
  embedding-level function, GlyphsToItems, Linebreak, font metrics) are fields
  of an `Env` record, or small definitions whose doc comment starts with
  `Modelled from the spec:`.
* Go slices are modelled as lists; in-place mutation becomes functional update.
  Out-of-range indexing (a Go panic) is modelled by `getD` defaults; no claim
  under study is decided in such a state, and each site is noted.
-/

namespace Canvas

/-- Writing mode of the text lines (src/text.go lines 81-85). -/
inductive WritingMode
| horizontalTB
| verticalRL
| verticalLR
deriving DecidableEq, Repr

/-- Orientation of horizontal text inside vertical text (src/text.go lines 103-106). -/
inductive TextOrient
| natural
| upright
deriving DecidableEq, Repr

/-- Text alignment (src/text.go lines 22-30). -/
inductive TextAlign
| left
| right
| center
| middle
| top
| bottom
| justify
deriving DecidableEq, Repr

/-- Vertical alignment of an embedded object (src/text.go lines 56-61). -/
inductive VerticalAlign
| baseline
| fontTop
| fontMiddle
| fontBottom
deriving DecidableEq, Repr

/-- Direction of a text run (text package; the constants used by src/text.go). -/
inductive Direction
| leftToRight
| rightToLeft
| topToBottom
| bottomToTop
| invalid
deriving DecidableEq, Repr

/-- Rotation of a glyph run (src/unnamed/part_001 lines 112-118): NoRotation, CW, CCW. -/
inductive Rot
| no
| cw
| ccw
deriving DecidableEq, Repr

/-- Unicode scripts that the sources name explicitly, plus Inherited / Common /
Invalid and a catch-all for the rest (text package Script values). -/
inductive Script
| inherited
| common
| invalid
| latin
| arabic
| hebrew
| han
| hangul
| katakana
| hiragana
| bopomofo
| mongolian
| phagsPa
| ogham
| oldTurkic
| egyptianHieroglyphs
| meroiticCursive
| meroiticHieroglyphs
| yi
| khmer
| lao
| brahmi
| taiTham
| newTaiLue
| taiLe
| taiViet
| thai
| tibetan
| myanmar
| other (n : ℕ)
deriving DecidableEq, Repr

/-- IsVerticalScript (src/unnamed/part_001 lines 108-110). -/
def IsVerticalScript (script : Script) : Bool :=
  script == .bopomofo || script == .egyptianHieroglyphs || script == .hiragana ||
  script == .katakana || script == .han || script == .hangul ||
  script == .meroiticCursive || script == .meroiticHieroglyphs ||
  script == .mongolian || script == .ogham || script == .oldTurkic ||
  script == .phagsPa || script == .yi

/-- IsParagraphSeparator (src/unnamed/part_001 lines 97-101): line feed,
vertical tab, form feed, carriage return, next line, line separator,
paragraph separator. -/
def IsParagraphSeparator (r : Char) : Bool :=
  decide (0x0A ≤ r.toNat) && decide (r.toNat ≤ 0x0D) || r.toNat == 0x85 ||
  r.toNat == 0x2028 || r.toNat == 0x2029

/-- ScriptRotation (src/unnamed/part_001 lines 120-127). -/
def ScriptRotation (script : Script) : Rot :=
  if script = .mongolian ∨ script = .phagsPa then .cw
  else if script = .ogham ∨ script = .oldTurkic then .ccw
  else .no

/-- A shaped glyph (src/unnamed/part_001 lines 57-70).  The SFNT pointer is the
font identity; uint16/uint32/int32 fields are kept as Nat/Int (no claim under
study depends on wraparound, the id conversion keeps its mod-2^16 reduction). -/
structure Glyph where
  font : ℕ
  size : ℚ
  script : Script
  vertical : Bool
  id : ℕ
  cluster : ℕ
  xAdvance : ℤ
  yAdvance : ℤ
  xOffset : ℤ
  yOffset : ℤ
  text : Char
deriving DecidableEq, Repr

instance : Inhabited Glyph :=
  ⟨{ font := 0, size := 0, script := .invalid, vertical := false, id := 0, cluster := 0,
     xAdvance := 0, yAdvance := 0, xOffset := 0, yOffset := 0, text := Char.ofNat 0 }⟩

/-- A script run produced by the itemizer (src/unnamed/part_001 lines 9-12). -/
structure ScriptItem where
  script : Script
  text : List Char
deriving DecidableEq, Repr

/-- Truncation toward zero, the behaviour of Go's int32(float64) conversion. -/
def i32trunc (q : ℚ) : ℤ :=
  if 0 ≤ q then q.floor else q.ceil

/-- The sub-list of elements with index in the half-open range from a to b,
the model of a Go slice expression l[a:b]. -/
def listSlice (l : List α) (a b : ℕ) : List α :=
  (l.drop a).take (b - a)

/-- Characters of a byte-indexed prefix: the model of Go's s[:n] on a UTF-8
string, for n on a rune boundary (a mid-rune n truncates at the rune). -/
def byteTake : List Char → ℕ → List Char
  | [], _ => []
  | c :: rest, n => if c.utf8Size ≤ n then c :: byteTake rest (n - c.utf8Size) else []

/-- Characters dropped up to a byte offset: the model of Go's s[n:]. -/
def byteDrop : List Char → ℕ → List Char
  | [], _ => []
  | c :: rest, n => if c.utf8Size ≤ n then byteDrop rest (n - c.utf8Size) else c :: rest

/-- The model of Go's s[a:b] byte slicing on a UTF-8 string. -/
def byteSlice (l : List Char) (a b : ℕ) : List Char :=
  byteTake (byteDrop l a) (b - a)

/-- Byte length of a buffer (strings.Builder.Len: the number of accumulated bytes). -/
def byteLen (l : List Char) : ℕ :=
  (l.map Char.utf8Size).sum

/-- indexer.index (src/text.go lines 305-312): the index of the last entry at
or before loc, -1 when loc precedes the first entry. -/
def indexerIndex (l : List ℕ) (loc : ℕ) : ℤ :=
  match l.findIdx? (fun start => loc < start) with
  | some idx => (idx : ℤ) - 1
  | none => (l.length : ℤ) - 1

/-- The in-place two-pointer swap loop that reverses a glyph slice
(src/text.go lines 593-595 and 841-843): swap the outermost pair and recurse
on the interior. -/
def revSwapF : ℕ → List α → List α
  | 0, l => l
  | _ + 1, [] => []
  | _ + 1, [a] => [a]
  | fuel + 1, a :: b :: rest =>
      ((b :: rest).getLastD a) :: (revSwapF fuel ((b :: rest).dropLast)) ++ [a]

/-- The fuel is the list length, which bounds the loop count. -/
def revSwap (l : List α) : List α :=
  revSwapF l.length l

theorem getLastD_cons_dropLast_reverse (l : List α) (d : α) (h : l ≠ []) :
    l.getLastD d :: l.dropLast.reverse = l.reverse := by
  rcases List.eq_nil_or_concat l with rfl | ⟨L, x, rfl⟩
  · exact absurd rfl h
  · simp

theorem revSwapF_eq_reverse :
    ∀ (n : ℕ) (l : List α), l.length ≤ n → revSwapF n l = l.reverse := by
  intro n
  induction n with
  | zero =>
    intro l hl
    have : l = [] := List.eq_nil_of_length_eq_zero (Nat.le_zero.mp hl)
    simp [this, revSwapF]
  | succ n ih =>
    intro l hl
    match l with
    | [] => simp [revSwapF]
    | [a] => simp [revSwapF]
    | a :: b :: rest =>
      have hlen : (b :: rest).dropLast.length ≤ n := by
        simp only [List.length_cons] at hl
        simp only [List.length_dropLast, List.length_cons]
        omega
      rw [revSwapF, ih _ hlen]
      rw [List.reverse_cons, ← getLastD_cons_dropLast_reverse (b :: rest) a (by simp)]

theorem revSwap_eq_reverse (l : List α) : revSwap l = l.reverse :=
  revSwapF_eq_reverse l.length l le_rfl

theorem revSwap_revSwap (l : List α) : revSwap (revSwap l) = l := by
  simp [revSwap_eq_reverse]

/-! ## Script itemizer (src/unnamed/part_001, ScriptItemizer) -/

/-- The padding loop of ScriptItemizer (part_001 lines 27-31): push inherited
placeholders until the stack reaches the level, then push the script. -/
def padStack (scripts : List Script) (level : ℕ) (script : Script) : List Script :=
  scripts ++ List.replicate (level - scripts.length) Script.inherited ++ [script]

/-- The per-rune loop of ScriptItemizer (part_001 lines 23-48), with the
remaining (rune, level) pairs, the script stack, the current segment
runes[i:j], whether j = 0, and the emitted items.  The final item (lines
49-52) is appended when the input is exhausted. -/
def scriptItemizerGo (lookup : Char → Script) :
    List (Char × ℕ) → List Script → List Char → Bool → List ScriptItem → List ScriptItem
  | [], scripts, seg, _, items =>
      items ++ [⟨scripts.getLastD Script.inherited, seg⟩]
  | (r, level) :: rest, scripts, seg, isFirst, items =>
      let curLevel : ℕ := scripts.length - 1
      let curScript := scripts.getD curLevel Script.inherited
      let script0 := lookup r
      let stScript : List Script × Script :=
        if scripts.length ≤ level then
          (padStack scripts level script0, script0)
        else if script0 ≠ Script.inherited ∧ script0 ≠ Script.common then
          ((scripts.set level script0).take (level + 1), script0)
        else
          (scripts.take (level + 1), scripts.getD level Script.inherited)
      if isFirst = false ∧ (curLevel ≠ level ∨
          (curScript ≠ stScript.2 ∧ curScript ≠ Script.inherited ∧ curScript ≠ Script.common ∧
           stScript.2 ≠ Script.inherited ∧ stScript.2 ≠ Script.common)) then
        scriptItemizerGo lookup rest stScript.1 [r] false (items ++ [⟨curScript, seg⟩])
      else
        scriptItemizerGo lookup rest stScript.1 (seg ++ [r]) false items

/-- ScriptItemizer (src/unnamed/part_001 lines 15-54), parameterized by the
LookupScript table, which is repository code outside src/; every theorem below
holds for an arbitrary table.  Embedding levels are the non-negative UAX 9
levels of the spec's embedding-level contract. -/
def ScriptItemizer (lookup : Char → Script) (runes : List Char) (levels : List ℕ) :
    List ScriptItem :=
  if runes.isEmpty then []
  else scriptItemizerGo lookup (runes.zip levels) [Script.inherited] [] true []

theorem scriptItemizerGo_flatten (lookup : Char → Script) (rest : List (Char × ℕ)) :
    ∀ (scripts : List Script) (seg : List Char) (isFirst : Bool) (items : List ScriptItem),
      ((scriptItemizerGo lookup rest scripts seg isFirst items).map ScriptItem.text).flatten
        = ((items.map ScriptItem.text).flatten) ++ seg ++ (rest.map Prod.fst) := by
  induction rest with
  | nil =>
    intro scripts seg isFirst items
    simp [scriptItemizerGo]
  | cons p rest ih =>
    intro scripts seg isFirst items
    obtain ⟨r, level⟩ := p
    simp only [scriptItemizerGo]
    repeat' split
    all_goals rw [ih]
    all_goals simp

/-- C5: ScriptItemizer is deterministic (it is a function of its arguments),
and for every rune slice with an embedding-level slice of matching length the
concatenation of the Text fields of the returned items, in order, equals the
input; an empty rune slice yields an empty item list, not an error. -/
theorem c5_scriptItemizer_concat (lookup : Char → Script) (runes : List Char)
    (levels : List ℕ) (h : levels.length = runes.length) :
    ((ScriptItemizer lookup runes levels).map ScriptItem.text).flatten = runes ∧
    (runes = [] → ScriptItemizer lookup runes levels = []) := by
  constructor
  · unfold ScriptItemizer
    by_cases hr : runes.isEmpty
    · rw [if_pos hr]
      simp [List.isEmpty_iff.mp hr]
    · rw [if_neg hr]
      rw [scriptItemizerGo_flatten]
      simp [List.map_fst_zip runes levels (le_of_eq h.symm)]
  · intro hr
    simp [ScriptItemizer, hr]

theorem c5_scriptItemizer_concat_witness :
    (([0, 0] : List ℕ).length = (['a', 'b'] : List Char).length) ∧
    (((ScriptItemizer (fun _ => Script.latin) ['a', 'b'] [0, 0]).map ScriptItem.text).flatten
        = ['a', 'b'] ∧
     (['a', 'b'] = ([] : List Char) →
        ScriptItemizer (fun _ => Script.latin) ['a', 'b'] [0, 0] = [])) :=
  ⟨by decide, c5_scriptItemizer_concat (fun _ => Script.latin) ['a', 'b'] [0, 0] (by decide)⟩

/-! ## Rich text model (src/text.go lines 315-457) -/

/-- An embedded canvas: only its size matters to layout (Canvas.Size). -/
structure CanvasObj where
  w : ℚ
  h : ℚ
deriving DecidableEq, Repr

/-- TextSpanObject (src/text.go lines 204-209). -/
structure TSObject where
  canvas : CanvasObj
  x : ℚ
  y : ℚ
  width : ℚ
  height : ℚ
  valign : VerticalAlign
deriving DecidableEq, Repr

instance : Inhabited TSObject :=
  ⟨{ canvas := ⟨0, 0⟩, x := 0, y := 0, width := 0, height := 0, valign := .baseline }⟩

/-- RichText (src/text.go lines 315-324).  Font faces are pointer identities
(ℕ); the nil face marker is none.  The strings.Builder is the list of runes of
the accumulated string; its Len() is byteLen of that list. -/
structure RichText where
  buffer : List Char
  locs : List ℕ
  faces : List (Option ℕ)
  mode : WritingMode
  orient : TextOrient
  defaultFace : ℕ
  objects : List TSObject
deriving DecidableEq

/-- NewRichText (src/text.go lines 327-339): the panic on a nil face is the
none result. -/
def NewRichText (face : Option ℕ) : Option RichText :=
  match face with
  | none => none
  | some f =>
      some { buffer := [], locs := [0], faces := [some f], mode := .horizontalTB,
             orient := .natural, defaultFace := f, objects := [] }

/-- WriteString / WriteRune on the embedded strings.Builder. -/
def writeChars (rt : RichText) (s : List Char) : RichText :=
  { rt with buffer := rt.buffer ++ s }

/-- The unexported setFace (src/text.go lines 366-377).  The emptiness test of
the just-closed run compares the builder's byte length rt.Len() with the
rune-denominated offset prevLoc, exactly as the source does. -/
def setFace (rt : RichText) (face : Option ℕ) : RichText :=
  if face = rt.faces.getLastD none then rt
  else
    let prevLoc := rt.locs.getLastD 0
    let lf : List ℕ × List (Option ℕ) :=
      if byteLen rt.buffer = prevLoc then (rt.locs.dropLast, rt.faces.dropLast)
      else (rt.locs, rt.faces)
    { rt with locs := lf.1 ++ [rt.buffer.length], faces := lf.2 ++ [face] }

/-- SetFace (src/text.go lines 359-364): the panic on a nil face is the none
result. -/
def SetFace (rt : RichText) (face : Option ℕ) : Option RichText :=
  match face with
  | none => none
  | some f => some (setFace rt (some f))

/-- Rune count of the byte prefix s[:n], the model of len([]rune(s[:n])) for n
on a rune boundary (a mid-rune n truncates at the rune). -/
def runePrefixLen (l : List Char) (n : ℕ) : ℕ :=
  (byteTake l n).length

/-- The k-loop of SetFaceSpan (src/text.go lines 388-399), returning the pair
(i, j) it leaves behind: i is the last index whose offset precedes start, and
j is one below the first index whose offset is at or beyond end (defaulting to
the last index when the loop runs out). -/
def sfsGo (start endB : ℕ) : List ℕ → ℕ → ℕ → ℤ → ℕ × ℤ
  | [], _, i, j => (i, j)
  | lk :: rest, k, i, j =>
    let i' := if lk < start then k else i
    if endB ≤ lk then (i', (k : ℤ) - 1)
    else sfsGo start endB rest (k + 1) i' j

/-- SetFaceSpan (src/text.go lines 380-403).  start and end are byte offsets
into the builder; offsets recorded in locs are rune counts.  A Go panic from
j = -1 (reachable only from already-corrupted states) is modelled by clamping
j at 0; the states evaluated below never reach it. -/
def SetFaceSpan (rt : RichText) (face : Option ℕ) (start endB : ℕ) : RichText :=
  if endB ≤ start ∨ byteLen rt.buffer ≤ start then rt
  else
    let endC := min endB (byteLen rt.buffer)
    let ij := sfsGo start endC rt.locs 0 0 ((rt.locs.length : ℤ) - 1)
    let i := ij.1
    let j := ij.2.toNat
    let locs1 := rt.locs.set j (runePrefixLen rt.buffer endC)
    { rt with
      locs := locs1.take i ++ [runePrefixLen rt.buffer start] ++ locs1.drop j,
      faces := rt.faces.take i ++ [face] ++ rt.faces.drop j }

/-- AddCanvas (src/text.go lines 413-427): wrap a placeholder rune, whose code
point is the current object count, in a temporary switch to the nil face. -/
def AddCanvas (rt : RichText) (c : CanvasObj) (valign : VerticalAlign) : RichText :=
  let face := rt.faces.getLastD none
  let rt1 := setFace rt none
  let rt2 := writeChars rt1 [Char.ofNat rt.objects.length]
  let rt3 := { rt2 with objects := rt2.objects ++ [⟨c, 0, 0, c.w, c.h, valign⟩] }
  setFace rt3 face

/-- Reset (src/text.go lines 342-346). -/
def Reset (rt : RichText) : RichText :=
  { rt with buffer := [], locs := rt.locs.take 1, faces := rt.faces.take 1 }

theorem setFace_buffer (rt : RichText) (f : Option ℕ) :
    (setFace rt f).buffer = rt.buffer := by
  unfold setFace
  split <;> rfl

theorem setFace_objects (rt : RichText) (f : Option ℕ) :
    (setFace rt f).objects = rt.objects := by
  unfold setFace
  split <;> rfl

/-- A fixed starting rich text: the value of NewRichText at face 1. -/
def rtE : RichText :=
  { buffer := [], locs := [0], faces := [some 1], mode := .horizontalTB,
    orient := .natural, defaultFace := 1, objects := [] }

/-- The state for claim C3: NewRichText face 1; WriteString of abc;
SetFaceSpan face 2 over the byte range [1, 2). -/
def rtC3 : RichText :=
  SetFaceSpan (writeChars rtE ['a', 'b', 'c']) (some 2) 1 2

/-- C3 (code bug): after NewRichText, WriteString of a three-rune ASCII string
and a SetFaceSpan over its middle byte, the face-offset list is [1, 2] — it no
longer starts at 0, and the face entry covering rune 0 has been lost, because
SetFaceSpan splices out the entry holding the enclosing run's start instead of
splitting it. -/
theorem c3_setFaceSpan_breaks_invariant :
    NewRichText (some 1) = some rtE ∧
    rtC3.locs = [1, 2] ∧
    rtC3.faces = [some 2, some 1] ∧
    rtC3.locs.head? ≠ some 0 := by
  refine ⟨rfl, by decide, by decide, by decide⟩

/-- The states for claim C7: NewRichText face 1; WriteString of a single
two-byte rune; SetFace face 2; SetFace face 3. -/
def rtC7a : RichText :=
  setFace (writeChars rtE ['é']) (some 2)

/-- See rtC7a: the state after the second SetFace. -/
def rtC7b : RichText :=
  setFace rtC7a (some 3)

/-- C7 (code bug): after writing one two-byte rune and switching to face 2,
the face-2 run contains no content, yet a further SetFace to face 3 keeps the
empty (1, face 2) entry and appends a duplicate offset — the emptiness test
compares the builder's byte length (2) with the rune offset (1). -/
theorem c7_setFace_keeps_empty_run :
    SetFace (writeChars rtE ['é']) (some 2) = some rtC7a ∧
    SetFace rtC7a (some 3) = some rtC7b ∧
    rtC7a.locs = [0, 1] ∧ rtC7a.faces = [some 1, some 2] ∧
    rtC7a.buffer.length = 1 ∧
    rtC7b.locs = [0, 1, 1] ∧ rtC7b.faces = [some 1, some 2, some 3] := by
  refine ⟨rfl, rfl, by decide, by decide, by decide, by decide, by decide⟩

/-- C8: NewRichText with a nil face and SetFace with a nil face panic in every
rich-text state; SetFace with a non-nil face never introduces the nil
object-marker face; the marker is installed by the unexported setFace that
AddCanvas uses. -/
theorem c8_nil_face_panics :
    NewRichText none = none ∧
    (∀ rt : RichText, SetFace rt none = none) ∧
    (∀ (rt : RichText) (f : ℕ) (rt' : RichText), SetFace rt (some f) = some rt' →
        none ∈ rt'.faces → none ∈ rt.faces) ∧
    none ∈ (AddCanvas rtE ⟨1, 1⟩ VerticalAlign.baseline).faces := by
  refine ⟨rfl, fun _ => rfl, ?_, by decide⟩
  intro rt f rt' h hmem
  have h' : rt' = setFace rt (some f) := by
    simpa [SetFace] using h.symm
  subst h'
  unfold setFace at hmem
  split at hmem
  · exact hmem
  · simp only [List.mem_append, List.mem_singleton] at hmem
    rcases hmem with hmem | hmem
    · split at hmem
      · simp only at hmem
        exact (List.dropLast_sublist rt.faces).mem hmem
      · exact hmem
    · exact absurd hmem (by simp)

theorem c8_nil_face_panics_witness :
    none ∈ (AddCanvas rtE ⟨1, 1⟩ VerticalAlign.baseline).faces :=
  c8_nil_face_panics.2.2.1 (AddCanvas rtE ⟨1, 1⟩ VerticalAlign.baseline) 5
    (setFace (AddCanvas rtE ⟨1, 1⟩ VerticalAlign.baseline) (some 5)) rfl (by decide)

/-- C10: Reset clears the buffer and truncates the face-offset and face lists
to their first entry, but leaves the object table unchanged; the first
AddCanvas after Reset encodes its placeholder rune as the pre-Reset object
count, and keeps the pre-Reset objects in the table. -/
theorem c10_reset_keeps_objects (rt : RichText) (c : CanvasObj) (v : VerticalAlign) :
    (Reset rt).buffer = [] ∧
    (Reset rt).locs = rt.locs.take 1 ∧
    (Reset rt).faces = rt.faces.take 1 ∧
    (Reset rt).objects = rt.objects ∧
    (AddCanvas (Reset rt) c v).buffer = [Char.ofNat rt.objects.length] ∧
    (AddCanvas (Reset rt) c v).objects = rt.objects ++ [⟨c, 0, 0, c.w, c.h, v⟩] := by
  refine ⟨rfl, rfl, rfl, rfl, ?_, ?_⟩
  · simp [AddCanvas, setFace_buffer, writeChars, Reset]
  · simp [AddCanvas, setFace_objects, writeChars, Reset]

/-! ## Line-breaking items and breakpoints (text package types used by ToText) -/

/-- Item kinds (text package BoxType / GlueType / PenaltyType). -/
inductive ItemType
| box
| glue
| penalty
deriving DecidableEq, Repr

/-- A line-breaking item: the fields of the text package's Item that ToText
reads (Type, Width, Stretch, Shrink, Penalty, Size). -/
structure Item where
  itemType : ItemType
  width : ℚ
  stretch : ℚ
  shrink : ℚ
  penalty : ℚ
  size : ℕ
deriving DecidableEq, Repr

instance : Inhabited Item := ⟨⟨.box, 0, 0, 0, 0, 0⟩⟩

/-- Modelled from the spec: the breaker's infinite-cost constant (the text
package's Infinity, not under src/; "cost = −∞ forces a break").  ToText only
compares a penalty against -Infinity, and every theorem below is insensitive
to the value. -/
def Infinity : ℚ := 10000

/-- A chosen breakpoint: the fields of the text package's Breakpoint that
ToText reads (Position, Width, Ratio; the ratio field is called rat here). -/
structure Breakpoint where
  position : ℤ
  width : ℚ
  rat : ℚ
deriving DecidableEq, Repr

instance : Inhabited Breakpoint := ⟨⟨0, 0, 0⟩⟩

/-- The loop of ToText's zero-width fallback (src/text.go lines 638-646):
non-penalty items accumulate width; a penalty at or below -Infinity emits a
breakpoint at its index carrying the accumulated width, which then resets. -/
def zeroWidthGo : List Item → ℕ → ℚ → List Breakpoint
  | [], _, _ => []
  | it :: rest, i, lineWidth =>
    if it.itemType ≠ .penalty then zeroWidthGo rest (i + 1) (lineWidth + it.width)
    else if it.penalty ≤ -Infinity then ⟨(i : ℤ), lineWidth, 0⟩ :: zeroWidthGo rest (i + 1) 0
    else zeroWidthGo rest (i + 1) lineWidth

/-- ToText's breakpoints when the target width is zero (src/text.go lines
635-647): a single (0, 0) breakpoint for an empty item list, else the
zeroWidthGo loop. -/
def zeroWidthBreaks (items : List Item) : List Breakpoint :=
  if items.isEmpty then [⟨0, 0, 0⟩]
  else zeroWidthGo items 0 0

/-- Indices of the forced-break penalties (penalty cost at or below
-Infinity), offset by i. -/
def forcedIdxs : List Item → ℕ → List ℕ
  | [], _ => []
  | it :: rest, i =>
    if it.itemType = .penalty ∧ it.penalty ≤ -Infinity then i :: forcedIdxs rest (i + 1)
    else forcedIdxs rest (i + 1)

/-- Total width of the non-penalty items with index in [lo, hi). -/
def nonPenWidth (items : List Item) (lo hi : ℕ) : ℚ :=
  (((listSlice items lo hi).filter (fun it => it.itemType ≠ .penalty)).map Item.width).sum

/-- Pair each forced index with the start of its line: one past the previous
forced index, s for the first. -/
def withStart : List ℕ → ℕ → List (ℕ × ℕ)
  | [], _ => []
  | i :: rest, s => (s, i) :: withStart rest (i + 1)

/-- The claim's own description of the zero-width fallback: one breakpoint per
forced-break penalty, at that penalty's position, carrying the total width of
the non-penalty items since the previous break; a single (0, 0) breakpoint for
an empty item list. -/
def specFallbackBreaks (items : List Item) : List Breakpoint :=
  if items.isEmpty then [⟨0, 0, 0⟩]
  else (withStart (forcedIdxs items 0) 0).map
    (fun sp => ⟨(sp.2 : ℤ), nonPenWidth items sp.1 sp.2, 0⟩)

theorem nonPenWidth_refl (items : List Item) (i : ℕ) : nonPenWidth items i i = 0 := by
  simp [nonPenWidth, listSlice]

theorem nonPenWidth_succ (items : List Item) (s i : ℕ) (hsi : s ≤ i)
    (hi : i < items.length) :
    nonPenWidth items s (i + 1) =
      nonPenWidth items s i +
        (if (items.getD i default).itemType ≠ ItemType.penalty
         then (items.getD i default).width else 0) := by
  have hgd : (items.drop s)[i - s]? = some (items.getD i default) := by
    rw [List.getElem?_drop]
    have hx : s + (i - s) = i := by omega
    rw [hx, List.getElem?_eq_getElem hi, List.getD_eq_getElem items default hi]
  unfold nonPenWidth listSlice
  have h1 : i + 1 - s = (i - s) + 1 := by omega
  rw [h1, List.take_succ, hgd]
  simp only [Option.toList_some, List.filter_append, List.map_append, List.sum_append]
  split
  · next h =>
    simp only [List.getD_eq_getElem?_getD] at h ⊢
    simp [List.filter, h]
  · next h =>
    simp only [List.getD_eq_getElem?_getD] at h ⊢
    simp only [ne_eq, not_not] at h
    simp [List.filter, h]

theorem zeroWidthGo_spec (items : List Item) :
    ∀ (rest : List Item) (i : ℕ) (acc : ℚ) (s : ℕ), s ≤ i → items.drop i = rest →
      acc = nonPenWidth items s i →
      zeroWidthGo rest i acc =
        (withStart (forcedIdxs rest i) s).map
          (fun sp => ⟨(sp.2 : ℤ), nonPenWidth items sp.1 sp.2, 0⟩) := by
  intro rest
  induction rest with
  | nil => intro i acc s _ _ _; simp [zeroWidthGo, forcedIdxs, withStart]
  | cons it rest ih =>
    intro i acc s hsi hdrop hacc
    have hi : i < items.length := by
      by_contra hle
      push_neg at hle
      rw [List.drop_eq_nil_of_le hle] at hdrop
      exact List.cons_ne_nil it rest hdrop.symm
    have hit : items.getD i default = it := by
      have := List.drop_eq_getElem_cons hi
      rw [hdrop] at this
      have := (List.cons.injEq _ _ _ _).mp this
      rw [List.getD_eq_getElem _ _ hi]
      exact this.1.symm
    have hdrop' : items.drop (i + 1) = rest := by
      have := List.drop_eq_getElem_cons hi
      rw [hdrop] at this
      exact ((List.cons.injEq _ _ _ _).mp this).2.symm
    by_cases hp : it.itemType ≠ ItemType.penalty
    · have hforced : ¬ (it.itemType = ItemType.penalty ∧ it.penalty ≤ -Infinity) := by
        intro hc
        exact hp hc.1
      rw [zeroWidthGo, if_pos hp, forcedIdxs, if_neg hforced]
      refine ih (i + 1) _ s (by omega) hdrop' ?_
      rw [nonPenWidth_succ items s i hsi hi, hit, if_pos hp, hacc]
    · push_neg at hp
      by_cases hf : it.penalty ≤ -Infinity
      · rw [zeroWidthGo, if_neg (by simp [hp]), if_pos hf, forcedIdxs,
          if_pos ⟨hp, hf⟩, withStart, List.map_cons]
        congr 1
        · have : acc = nonPenWidth items s i := hacc
          rw [this]
        · refine ih (i + 1) _ (i + 1) (by omega) hdrop' ?_
          rw [nonPenWidth_refl]
      · rw [zeroWidthGo, if_neg (by simp [hp]), if_neg hf, forcedIdxs,
          if_neg (by intro hc; exact hf hc.2)]
        refine ih (i + 1) _ s (by omega) hdrop' ?_
        rw [nonPenWidth_succ items s i hsi hi, hit, if_neg (by simp [hp]), hacc]
        simp

/-- C6: with a zero target width, ToText performs no optimal line breaking —
for a nonempty item list it emits exactly one breakpoint per forced-break
penalty (cost at or below -Infinity), each carrying the accumulated width of
the non-penalty items since the previous break, and for an empty item list a
single breakpoint at position 0 with width 0. -/
theorem c6_zero_width_fallback (items : List Item) :
    zeroWidthBreaks items = specFallbackBreaks items := by
  unfold zeroWidthBreaks specFallbackBreaks
  by_cases h : items.isEmpty
  · rw [if_pos h, if_pos h]
  · rw [if_neg h, if_neg h]
    exact zeroWidthGo_spec items items 0 0 0 le_rfl (by simp) (by rw [nonPenWidth_refl])

/-! ## The post-break coalescing pass of ToText (src/text.go lines 649-712) -/

/-- Merge items[k-1] and items[k] into f items[k-1] items[k], removing
items[k]: the shape of the in-place merge-and-splice steps of the pass. -/
def mergePair (items : List Item) (k : ℕ) (f : Item → Item → Item) : List Item :=
  items.take (k - 1) ++ [f (items.getD (k - 1) default) (items.getD k default)] ++
    items.drop (k + 1)

/-- Merge items[k] into items[k+1] (the fold of a trailing glue into the
upcoming break item), removing items[k]. -/
def mergePairR (items : List Item) (k : ℕ) (f : Item → Item → Item) : List Item :=
  items.take k ++ [f (items.getD k default) (items.getD (k + 1) default)] ++
    items.drop (k + 2)

/-- breaks[j] with the Go-panic default: an out-of-range read (a Go panic, not
reached by the evaluations below) yields a sentinel breakpoint whose position
matches no index. -/
def bpAt (breaks : List Breakpoint) (j : ℕ) : Breakpoint :=
  breaks.getD j ⟨-(2 ^ 62), 0, 0⟩

/-- The loop state of the coalescing pass: items, breaks, line index j, break
index shift, and item index k. -/
structure CoalesceSt where
  items : List Item
  breaks : List Breakpoint
  j : ℕ
  shift : ℕ
  k : ℕ
deriving DecidableEq, Repr

/-- One iteration of the coalescing loop body (src/text.go lines 659-711).
The branches are, in source order: keep a breaking item (updating its position
by the shift); fold a line-leading glue into the break item before it; fold a
line-trailing glue into the break item after it; remove a non-breaking
penalty; remove an empty glue; merge adjacent glues (re-scanning one item
back, the Go k -= 2); merge adjacent boxes; fold a space-width glue into the
preceding box; otherwise advance.  The Go k-- followed by the loop's k++ is a
net unchanged k. -/
def coalesceStep (s : CoalesceSt) : CoalesceSt :=
  if (s.k : ℤ) = (bpAt s.breaks s.j).position - s.shift then
    ⟨s.items,
     s.breaks.set s.j
       { bpAt s.breaks s.j with position := (bpAt s.breaks s.j).position - s.shift },
     s.j + 1, s.shift, s.k + 1⟩
  else if 0 < s.k ∧ (s.items.getD s.k default).itemType = .glue ∧ 0 < s.j ∧
      (s.k : ℤ) - 1 = (bpAt s.breaks (s.j - 1)).position then
    ⟨mergePair s.items s.k fun a b => { a with size := a.size + b.size },
     s.breaks, s.j, s.shift + 1, s.k⟩
  else if s.k + 1 < s.items.length ∧ (s.items.getD s.k default).itemType = .glue ∧
      (s.k : ℤ) + 1 = (bpAt s.breaks s.j).position - s.shift then
    ⟨mergePairR s.items s.k fun a b => { b with size := b.size + a.size },
     s.breaks, s.j, s.shift + 1, s.k⟩
  else if (s.items.getD s.k default).itemType = .penalty ∧
      (s.items.getD s.k default).size = 0 then
    ⟨s.items.take s.k ++ s.items.drop (s.k + 1), s.breaks, s.j, s.shift + 1, s.k⟩
  else if (s.items.getD s.k default).itemType = .glue ∧
      (s.items.getD s.k default).size = 0 ∧ (bpAt s.breaks s.j).rat = 0 then
    ⟨s.items.take s.k ++ s.items.drop (s.k + 1), s.breaks, s.j, s.shift + 1, s.k⟩
  else if 0 < s.k ∧ (s.items.getD s.k default).itemType = .glue ∧
      (s.items.getD (s.k - 1) default).itemType = .glue then
    ⟨mergePair s.items s.k fun a b =>
       { a with width := a.width + b.width, stretch := a.stretch + b.stretch,
                shrink := a.shrink + b.shrink, size := a.size + b.size },
     s.breaks, s.j, s.shift + 1, s.k - 1⟩
  else if 0 < s.k ∧ (s.items.getD s.k default).itemType = .box ∧
      (s.items.getD (s.k - 1) default).itemType = .box then
    ⟨mergePair s.items s.k fun a b =>
       { a with width := a.width + b.width, size := a.size + b.size },
     s.breaks, s.j, s.shift + 1, s.k⟩
  else if 0 < s.k ∧ (s.items.getD s.k default).itemType = .glue ∧
      ((bpAt s.breaks s.j).rat = 0 ∨
        ((s.items.getD s.k default).stretch = 0 ∧ (s.items.getD s.k default).shrink = 0)) ∧
      (s.items.getD (s.k - 1) default).itemType = .box then
    ⟨mergePair s.items s.k fun a b =>
       { a with itemType := .box, width := a.width + b.width, size := a.size + b.size },
     s.breaks, s.j, s.shift + 1, s.k⟩
  else
    ⟨s.items, s.breaks, s.j, s.shift, s.k + 1⟩

/-- The coalescing loop (src/text.go lines 658-712): iterate the step while
k < len(items).  The fuel dominates the loop count: every iteration either
advances k or shortens items. -/
def coalesceGo : ℕ → CoalesceSt → List Item × List Breakpoint
  | 0, s => (s.items, s.breaks)
  | fuel + 1, s =>
    if s.k < s.items.length then coalesceGo fuel (coalesceStep s)
    else (s.items, s.breaks)

/-- The full pass (src/text.go lines 649-712): drop a leading zero-width
(indent) box first (lines 653-657), then run the loop with enough fuel. -/
def coalesce (items0 : List Item) (breaks : List Breakpoint) :
    List Item × List Breakpoint :=
  if 0 < items0.length ∧ (items0.getD 0 default).width = 0 then
    coalesceGo (3 * items0.length + 3) ⟨items0.drop 1, breaks, 0, 1, 0⟩
  else
    coalesceGo (3 * items0.length + 3) ⟨items0, breaks, 0, 0, 0⟩

/-- Total of the Size fields across an item list. -/
def sumSize (items : List Item) : ℕ :=
  (items.map Item.size).sum

theorem sumSize_append (l₁ l₂ : List Item) :
    sumSize (l₁ ++ l₂) = sumSize l₁ + sumSize l₂ := by
  simp [sumSize]

theorem items_split_at (items : List Item) (k : ℕ) (hk : k < items.length) :
    items = items.take k ++ [items.getD k default] ++ items.drop (k + 1) := by
  conv_lhs => rw [← List.take_append_drop k items]
  rw [List.drop_eq_getElem_cons hk, List.getD_eq_getElem items default hk]
  simp

theorem sumSize_singleton (it : Item) : sumSize [it] = it.size := by
  simp [sumSize]

theorem sumSize_split_at (items : List Item) (k : ℕ) (hk : k < items.length) :
    sumSize items = sumSize (items.take k) + ((items.getD k default).size +
      sumSize (items.drop (k + 1))) := by
  conv_lhs => rw [items_split_at items k hk]
  rw [sumSize_append, sumSize_append, sumSize_singleton]
  omega

theorem sumSize_mergePair (items : List Item) (k : ℕ) (f : Item → Item → Item)
    (h0 : 0 < k) (hk : k < items.length)
    (hf : ∀ a b, (f a b).size = a.size + b.size) :
    sumSize (mergePair items k f) = sumSize items := by
  have hk1 : k - 1 < items.length := by omega
  have htk : sumSize (items.take k) = sumSize (items.take (k - 1)) +
      (items.getD (k - 1) default).size := by
    have hkk : k = (k - 1) + 1 := by omega
    conv_lhs => rw [hkk]
    rw [List.take_succ, List.getElem?_eq_getElem hk1, ← List.getD_eq_getElem items default hk1]
    rw [Option.toList_some, sumSize_append, sumSize_singleton]
  have hsum := sumSize_split_at items k hk
  rw [htk] at hsum
  unfold mergePair
  rw [sumSize_append, sumSize_append, sumSize_singleton, hf, hsum]
  omega

theorem sumSize_mergePairR (items : List Item) (k : ℕ) (f : Item → Item → Item)
    (hk : k + 1 < items.length)
    (hf : ∀ a b, (f a b).size = a.size + b.size) :
    sumSize (mergePairR items k f) = sumSize items := by
  have hk0 : k < items.length := by omega
  have hdp : sumSize (items.drop (k + 1)) = (items.getD (k + 1) default).size +
      sumSize (items.drop (k + 2)) := by
    rw [List.drop_eq_getElem_cons hk, ← List.getD_eq_getElem items default hk]
    simp [sumSize]
  have hsum := sumSize_split_at items k hk0
  rw [hdp] at hsum
  unfold mergePairR
  rw [sumSize_append, sumSize_append, sumSize_singleton, hf, hsum]
  omega

theorem sumSize_remove (items : List Item) (k : ℕ) (hk : k < items.length)
    (hz : (items.getD k default).size = 0) :
    sumSize (items.take k ++ items.drop (k + 1)) = sumSize items := by
  rw [sumSize_append, sumSize_split_at items k hk, hz]
  omega

theorem coalesceStep_sumSize (s : CoalesceSt) (hk : s.k < s.items.length) :
    sumSize (coalesceStep s).items = sumSize s.items := by
  unfold coalesceStep
  repeat' split
  all_goals dsimp only
  · next h =>
    apply sumSize_mergePair s.items s.k _ h.1 hk
    intro a b
    rfl
  · next h =>
    apply sumSize_mergePairR s.items s.k _ h.1
    intro a b
    exact Nat.add_comm b.size a.size
  · next h => exact sumSize_remove s.items s.k hk h.2
  · next h => exact sumSize_remove s.items s.k hk h.2.1
  · next h =>
    apply sumSize_mergePair s.items s.k _ h.1 hk
    intro a b
    rfl
  · next h =>
    apply sumSize_mergePair s.items s.k _ h.1 hk
    intro a b
    rfl
  · next h =>
    apply sumSize_mergePair s.items s.k _ h.1 hk
    intro a b
    rfl

theorem coalesceGo_sumSize (fuel : ℕ) :
    ∀ s : CoalesceSt, sumSize (coalesceGo fuel s).1 = sumSize s.items := by
  induction fuel with
  | zero => intro s; rfl
  | succ fuel ih =>
    intro s
    rw [coalesceGo]
    split
    · next hk => rw [ih, coalesceStep_sumSize s hk]
    · rfl

/-- The items of claim C4's counterexample: a zero-width box that carries one
glyph, then the final forced-break penalty. -/
def c4Items : List Item :=
  [⟨.box, 0, 0, 0, 0, 1⟩, ⟨.penalty, 0, 0, 0, -Infinity, 0⟩]

/-- C4 (counterexample): on an item list whose first item is a zero-width box
of size 1 — a zero-advance glyph box in first position, with no indent box in
front of it — the pass drops that box as if it were the empty indent box, and
the total Size falls from 1 to 0.  The breakpoint list is the one the
zero-width fallback computes for these items. -/
theorem c4_coalesce_size_not_preserved :
    zeroWidthBreaks c4Items = [⟨1, 0, 0⟩] ∧
    sumSize c4Items = 1 ∧
    sumSize (coalesce c4Items [⟨1, 0, 0⟩]).1 = 0 ∧
    sumSize (coalesce c4Items [⟨1, 0, 0⟩]).1 ≠ sumSize c4Items := by
  refine ⟨?_, by decide, by decide, by decide⟩
  norm_num [zeroWidthBreaks, zeroWidthGo, c4Items, Infinity]

/-- C4 (amended): provided the leading item, when of zero width, has zero size
— as the indent box does — the coalescing pass preserves the total of the
items' Size fields; every loop branch preserves it unconditionally. -/
theorem c4_coalesce_sum_size (items : List Item) (breaks : List Breakpoint)
    (h : ∀ it0, items.head? = some it0 → it0.width = 0 → it0.size = 0) :
    sumSize (coalesce items breaks).1 = sumSize items := by
  unfold coalesce
  split
  · next hc =>
    rw [coalesceGo_sumSize]
    match items, hc with
    | it0 :: rest, hc =>
      have hz : it0.size = 0 := h it0 rfl (by simpa using hc.2)
      simp [sumSize, hz]
  · rw [coalesceGo_sumSize]

theorem c4_coalesce_sum_size_witness :
    sumSize (coalesce [⟨ItemType.box, 2, 0, 0, 0, 1⟩] []).1 =
      sumSize [⟨ItemType.box, 2, 0, 0, 0, 1⟩] :=
  c4_coalesce_sum_size [⟨ItemType.box, 2, 0, 0, 0, 1⟩] []
    (fun it0 h0 => by
      simp only [List.head?_cons, Option.some.injEq] at h0
      subst h0
      intro hw
      simp at hw)

/-! ## ToText: itemization by face and script, shaping (src/text.go lines 483-603) -/

/-- Alignment passed to the item builder (text package Left / Justified). -/
inductive BreakAlign
| left
| justified
deriving DecidableEq, Repr

/-- Line heights: the (top, ascent, descent, bottom) quadruple. -/
structure Heights4 where
  top : ℚ
  ascent : ℚ
  descent : ℚ
  bottom : ℚ
deriving DecidableEq, Repr

/-- The external collaborators of ToText that live outside src/: the
embedding-level function, the script table, the shaper, the item builder and
breaker of the text package, and the FontFace / Font accessors.  Faces and
fonts are pointer identities (ℕ). -/
structure Env where
  lookupScript : Char → Script
  embeddingLevels : List Char → List ℕ
  shape : ℕ → List Char → ℚ → Direction → Script → List Glyph × Direction
  glyphsToItems : List Glyph → ℚ → BreakAlign → List Item
  linebreak : List Item → ℚ → ℤ → List Breakpoint × Bool
  faceDirection : ℕ → Direction
  facePPEM : ℕ → ℚ
  faceSize : ℕ → ℚ
  faceFont : ℕ → ℕ
  faceHeights : ℕ → WritingMode → Heights4
  faceAscent : ℕ → ℚ
  faceDescent : ℕ → ℚ
  faceLineGap : ℕ → ℚ
  faceMmPerEm : ℕ → ℚ
  textWidth : ℕ → List Glyph → ℚ
  glyphIndexHyphen : ℕ → ℕ
  glyphAdvance : ℕ → ℕ → ℤ
  fontUPEM : ℕ → ℤ
  fontHheaDescender : ℕ → ℤ
  fontSxHeight : ℕ → ℤ

/-- A maximal run sharing face and script: one entry of the parallel
texts/scripts/faces slices of ToText (lines 489-530). -/
structure FaceRun where
  text : List Char
  script : Script
  face : Option ℕ
deriving DecidableEq, Repr

instance : Inhabited FaceRun := ⟨⟨[], .invalid, none⟩⟩

/-- faces[idx] for an indexer result: a negative or out-of-range index is a Go
panic, modelled as the nil face. -/
def faceAt (faces : List (Option ℕ)) (idx : ℤ) : Option ℕ :=
  if idx < 0 then none else faces.getD idx.toNat none

/-- One flushed face segment (lines 496-513 and 516-529): an object run keeps
its text as a single run with invalid script and nil face, a text run is
script-itemized. -/
def flushSegment (env : Env) (face : Option ℕ) (seg : List Char) (segLevels : List ℕ) :
    List FaceRun :=
  match face with
  | none => [⟨seg, .invalid, none⟩]
  | some f =>
      (ScriptItemizer env.lookupScript seg segLevels).map
        (fun it => ⟨it.text, it.script, some f⟩)

/-- The face-segmentation loop of ToText (lines 492-530): walk the rune
indices, flushing runes[i:j] whenever the face index changes, and flush the
trailing segment.  The first argument counts the remaining indices. -/
def itemizeByFaceGo (env : Env) (rt : RichText) (levels : List ℕ) :
    ℕ → ℕ → ℕ → ℤ → List FaceRun → List FaceRun
  | 0, _, i, curFace, runs =>
      if i < rt.buffer.length then
        runs ++ flushSegment env (faceAt rt.faces curFace)
          (listSlice rt.buffer i rt.buffer.length) (listSlice levels i rt.buffer.length)
      else runs
  | rem + 1, j, i, curFace, runs =>
      let nextFace := indexerIndex rt.locs j
      if nextFace ≠ curFace then
        itemizeByFaceGo env rt levels rem (j + 1) j nextFace
          (runs ++ flushSegment env (faceAt rt.faces curFace)
            (listSlice rt.buffer i j) (listSlice levels i j))
      else
        itemizeByFaceGo env rt levels rem (j + 1) i curFace runs

/-- The itemization of the rich text by face and script (lines 484-530). -/
def itemizeByFace (env : Env) (rt : RichText) : List FaceRun :=
  itemizeByFaceGo env rt (env.embeddingLevels rt.buffer) rt.buffer.length 0 0 0 []

/-- scriptDirection (src/text.go lines 459-480). -/
def scriptDirection (mode : WritingMode) (orient : TextOrient) (script : Script)
    (direction0 : Direction) : Direction × Rot :=
  let d1 :=
    if direction0 = .topToBottom ∨ direction0 = .bottomToTop then
      if mode = .horizontalTB then Direction.leftToRight else Direction.topToBottom
    else if mode ≠ .horizontalTB then Direction.topToBottom
    else direction0
  if mode ≠ .horizontalTB then
    if IsVerticalScript script = false ∧ orient = .natural then (.leftToRight, .cw)
    else
      let r := ScriptRotation script
      if r ≠ .no then (.leftToRight, r) else (d1, .no)
  else (d1, .no)

/-- Characters of a string paired with their byte offsets, the model of Go's
for i, r := range text. -/
def charsWithBytePos : List Char → ℕ → List (ℕ × Char)
  | [], _ => []
  | c :: rest, p => (p, c) :: charsWithBytePos rest (p + c.utf8Size)

/-- The pseudo-glyph synthesis for an object run (lines 544-563): one glyph
per placeholder rune, advancing by the object's width (height, negated, on
vertical axes), sized against the default face. -/
def shapeObjectRun (env : Env) (rt : RichText) (clusterOffset : ℕ) (run : FaceRun) :
    List Glyph :=
  (charsWithBytePos run.text 0).map (fun pc =>
    let obj := rt.objects.getD pc.2.toNat default
    let ppem : ℚ := (env.fontUPEM (env.faceFont rt.defaultFace) : ℚ)
    let xadv := obj.width
    let yadv := if rt.mode ≠ .horizontalTB then -obj.height else obj.height
    { font := env.faceFont rt.defaultFace,
      size := env.faceSize rt.defaultFace,
      script := run.script,
      vertical := rt.mode ≠ .horizontalTB,
      id := pc.2.toNat % 2 ^ 16,
      cluster := clusterOffset + pc.1,
      xAdvance := i32trunc (xadv * ppem / env.faceSize rt.defaultFace),
      yAdvance := i32trunc (yadv * ppem / env.faceSize rt.defaultFace),
      xOffset := 0, yOffset := 0, text := Char.ofNat 0 })

/-- The shaping and normalization of one text run (lines 566-586), before the
directional reversal: shaper output with font, size, script, verticality, the
cluster offset, and the vertical-mode offset corrections applied (their int32
division by 2 truncates toward zero in Go, hence Int.tdiv). -/
def shapeRunBase (env : Env) (mode : WritingMode) (orient : TextOrient)
    (clusterOffset : ℕ) (f : ℕ) (run : FaceRun) : List Glyph × Direction × Rot :=
  let ppem := env.facePPEM f
  let dr := scriptDirection mode orient run.script (env.faceDirection f)
  let sh := env.shape f run.text ppem dr.1 run.script
  let direction := sh.2
  let gs := sh.1.map (fun g =>
    let g1 := { g with
      font := env.faceFont f,
      size := env.faceSize f,
      script := run.script,
      vertical := direction = .topToBottom ∨ direction = .bottomToTop,
      cluster := g.cluster + clusterOffset }
    if mode ≠ .horizontalTB then
      if run.script = .mongolian then
        { g1 with yOffset := g1.yOffset + env.fontHheaDescender (env.faceFont f) }
      else if dr.2 ≠ .no then
        { g1 with yOffset :=
            g1.yOffset - Int.tdiv (env.fontSxHeight (env.faceFont f)) 2 }
      else if orient = .upright ∧ dr.2 = .no ∧ IsVerticalScript run.script = false then
        { g1 with yOffset :=
            Int.tdiv (-(env.fontUPEM (env.faceFont f) + env.fontSxHeight (env.faceFont f))) 2 }
      else g1
    else g1)
  (gs, direction, dr.2)

/-- The per-run result of the shaping loop body (lines 538-587), before the
directional reversal: an object run synthesizes pseudo-glyphs with invalid
direction and no rotation, and a text run goes through shapeRunBase. -/
def shapedRunGlyphs (env : Env) (rt : RichText) (clusterOffset : ℕ) (run : FaceRun) :
    List Glyph × Direction × Rot :=
  match run.face with
  | none => (shapeObjectRun env rt clusterOffset run, .invalid, .no)
  | some f => shapeRunBase env rt.mode rt.orient clusterOffset f run

/-- The outputs of the shaping loop (lines 533-537). -/
structure ShapeOut where
  glyphIndices : List ℕ
  glyphs : List Glyph
  directions : List Direction
  rotations : List Rot
deriving Repr

/-- The glyphs a run contributes in breaking order (lines 589-596): the
normalized shaper output, reversed in place when the run's direction is
right-to-left or bottom-to-top. -/
def runBreakingGlyphs (env : Env) (rt : RichText) (clusterOffset : ℕ)
    (run : FaceRun) : List Glyph :=
  let res := shapedRunGlyphs env rt clusterOffset run
  if res.2.1 = .rightToLeft ∨ res.2.1 = .bottomToTop then revSwap res.1 else res.1

/-- The shaping loop of ToText (lines 538-603): shape each run, reverse
right-to-left and bottom-to-top runs in place for line breaking, record the
glyph start index, direction and rotation per run, and advance the cluster
offset by the run's byte length. -/
def shapeAllGo (env : Env) (rt : RichText) : List FaceRun → ℕ → ShapeOut → ShapeOut
  | [], _, out => out
  | run :: rest, clusterOffset, out =>
      let res := shapedRunGlyphs env rt clusterOffset run
      shapeAllGo env rt rest (clusterOffset + byteLen run.text)
        ⟨out.glyphIndices ++ [out.glyphs.length],
         out.glyphs ++ runBreakingGlyphs env rt clusterOffset run,
         out.directions ++ [res.2.1], out.rotations ++ [res.2.2]⟩

/-- The full shaping stage of ToText over the face-and-script runs. -/
def shapeAll (env : Env) (rt : RichText) (runs : List FaceRun) : ShapeOut :=
  shapeAllGo env rt runs 0 ⟨[], [], [], []⟩

/-! ## Text output model and line heights (src/text.go lines 118-232) -/

/-- TextSpan (src/text.go lines 186-196). -/
structure TextSpan where
  x : ℚ
  width : ℚ
  face : ℕ
  txt : List Char
  glyphs : List Glyph
  direction : Direction
  rot : Rot
  objects : List TSObject
deriving DecidableEq, Repr

instance : Inhabited TextSpan :=
  ⟨{ x := 0, width := 0, face := 0, txt := [], glyphs := [], direction := .invalid,
     rot := .no, objects := [] }⟩

/-- A text line (src/text.go lines 129-132). -/
structure Line where
  y : ℚ
  spans : List TextSpan
deriving DecidableEq, Repr

instance : Inhabited Line := ⟨⟨0, []⟩⟩

/-- TextSpanObject.Heights (src/text.go lines 212-225): the (ascent, descent)
pair of an embedded object against a face. -/
def objHeights (env : Env) (obj : TSObject) (face : ℕ) : ℚ × ℚ :=
  match obj.valign with
  | .fontTop => (env.faceAscent face, -(env.faceAscent face - obj.height))
  | .fontMiddle =>
      ((env.faceAscent face - env.faceDescent face + obj.height) / 2,
       -(env.faceAscent face - env.faceDescent face - obj.height) / 2)
  | .fontBottom => (-env.faceDescent face + obj.height, env.faceDescent face)
  | .baseline => (obj.height, 0)

/-- line.Heights (src/text.go lines 135-183): the maximum top, ascent,
descent and bottom across the line's spans, with the vertical-mode variant
folding in an upright-glyph/object width. -/
def lineHeights (env : Env) (mode : WritingMode) (l : Line) : Heights4 :=
  if mode = .horizontalTB then
    l.spans.foldl (fun acc span =>
      if span.objects.isEmpty then
        let h := env.faceHeights span.face mode
        ⟨max acc.top h.top, max acc.ascent h.ascent,
         max acc.descent h.descent, max acc.bottom h.bottom⟩
      else
        span.objects.foldl (fun acc2 obj =>
          let ad := objHeights env obj span.face
          let gap := env.faceLineGap span.face
          ⟨max acc2.top (ad.1 + gap), max acc2.ascent ad.1,
           max acc2.descent ad.2, max acc2.bottom (ad.2 + gap)⟩) acc)
      ⟨0, 0, 0, 0⟩
  else
    let hw : Heights4 × ℚ :=
      l.spans.foldl (fun acc span =>
        if span.objects.isEmpty then
          span.glyphs.foldl (fun acc2 g =>
            if g.vertical then
              (acc2.1, max acc2.2
                ((12 : ℚ) / 10 * env.faceMmPerEm span.face *
                  (env.glyphAdvance g.font g.id : ℚ)))
            else
              let h := env.faceHeights span.face mode
              (⟨max acc2.1.top h.top, max acc2.1.ascent h.ascent,
                max acc2.1.descent h.descent, max acc2.1.bottom h.bottom⟩, acc2.2)) acc
        else
          span.objects.foldl (fun acc2 obj => (acc2.1, max acc2.2 obj.width)) acc)
        (⟨0, 0, 0, 0⟩, 0)
    ⟨max hw.1.top (hw.2 / 2), max hw.1.ascent (hw.2 / 2),
     max hw.1.descent (hw.2 / 2), max hw.1.bottom (hw.2 / 2)⟩

/-! ## ToText: line assembly (src/text.go lines 714-939) -/

/-- Functional update of one list position (the model of l[i] = f(l[i])). -/
def modifyAt : List α → ℕ → (α → α) → List α
  | [], _, _ => []
  | a :: rest, 0, f => f a :: rest
  | a :: rest, n + 1, f => a :: modifyAt rest n f

/-- Map with the element index, starting at n. -/
def mapWithIdx (f : ℕ → α → α) : List α → ℕ → List α
  | [], _ => []
  | a :: rest, n => f n a :: mapWithIdx f rest (n + 1)

/-- Update of the last element (the Go l[len(l)-1] = f(...)). -/
def modifyLast (l : List α) (f : α → α) : List α :=
  modifyAt l (l.length - 1) f

/-- t.lines[j], with the Go panic on an out-of-range j modelled by the empty
line. -/
def lineAt (lines : List Line) (j : ℕ) : Line :=
  lines.getD j ⟨0, []⟩

/-- The in-place reversal of the glyph sub-range [a, b) (src/text.go lines
841-843): after the swap loop, position i inside the range holds the glyph
from the mirrored position a + b - 1 - i; positions outside are untouched. -/
def revRange (l : List Glyph) (a b : ℕ) : List Glyph :=
  mapWithIdx (fun i g => if a ≤ i ∧ i < b then l.getD (a + b - 1 - i) default else g) l 0

/-- directions[k], with a negative or out-of-range k (a Go panic) at the
invalid direction. -/
def dirAt (dirs : List Direction) (k : ℤ) : Direction :=
  if k < 0 then .invalid else dirs.getD k.toNat .invalid

/-- rotations[k], with a negative or out-of-range k (a Go panic) at no
rotation. -/
def rotAt (rots : List Rot) (k : ℤ) : Rot :=
  if k < 0 then .no else rots.getD k.toNat .no

/-- The read-only context of the assembly loop: the environment, the
receiver's fields that the loop reads, the shaping outputs, and the post-swap
box and alignment parameters. -/
structure ACtx where
  env : Env
  rtMode : WritingMode
  rtOrient : TextOrient
  defaultFace : ℕ
  objects : List TSObject
  log : List Char
  runs : List FaceRun
  glyphIndices : List ℕ
  directions : List Direction
  rotations : List Rot
  width : ℚ
  height : ℚ
  halign : TextAlign
  lineSpacing : ℚ
  itemsLen : ℕ

/-- The mutable state of the assembly loop: the lines and fonts of the Text
being built, its (possibly truncated) text, the glyph array (mutated by the
directional un-reversal), the breakpoints, and the indices and positions
i, j, x, y of lines 727-728. -/
structure AState where
  lines : List Line
  fontsUsed : List ℕ
  txt : List Char
  glyphsArr : List Glyph
  breaks : List Breakpoint
  i : ℕ
  j : ℕ
  x : ℚ
  y : ℚ

/-- The hyphen glyph synthesized at a chosen hyphenation break (lines
746-753).  Fields the source leaves at their zero value keep the default. -/
def hyphenGlyph (env : Env) (face : ℕ) : Glyph :=
  { (default : Glyph) with
    font := env.faceFont face,
    size := env.faceSize face,
    id := env.glyphIndexHyphen face,
    xAdvance := env.glyphAdvance (env.faceFont face) (env.glyphIndexHyphen face),
    text := '-' }

/-- The breakpoint prologue (lines 737-758): append the break item's glyph
text to the previous span, and realize a soft-hyphen penalty by appending a
literal hyphen glyph; both only when the current line has a span. -/
def breakSpanUpdates (ctx : ACtx) (s : AState) (item : Item) : AState :=
  if 0 < (lineAt s.lines s.j).spans.length then
    let spaceTxt := (listSlice s.glyphsArr s.i (s.i + item.size)).map Glyph.text
    let lines1 := modifyAt s.lines s.j (fun ln =>
      { ln with spans := modifyLast ln.spans (fun sp => { sp with txt := sp.txt ++ spaceTxt }) })
    let lines2 :=
      if item.itemType = .penalty ∧ item.size = 1 ∧
          (s.glyphsArr.getD s.i default).text = Char.ofNat 173 then
        modifyAt lines1 s.j (fun ln =>
          { ln with spans := modifyLast ln.spans (fun sp =>
              let g := hyphenGlyph ctx.env sp.face
              { sp with glyphs := sp.glyphs ++ [g],
                        width := sp.width + ctx.env.textWidth sp.face [g],
                        txt := sp.txt ++ ['-'] }) })
      else lines1
    { s with lines := lines2 }
  else s

/-- The line heights at a breakpoint (lines 760-765): an empty line falls back
to the face of the glyph run at index i (a nil face there is a Go panic,
modelled as zero heights); otherwise line.Heights. -/
def breakHeights (ctx : ACtx) (s1 : AState) : Heights4 :=
  if (lineAt s1.lines s1.j).spans.length = 0 then
    match faceAt (ctx.runs.map FaceRun.face) (indexerIndex ctx.glyphIndices s1.i) with
    | some f => ctx.env.faceHeights f ctx.rtMode
    | none => ⟨0, 0, 0, 0⟩
  else lineHeights ctx.env ctx.rtMode (lineAt s1.lines s1.j)

/-- The stretched ascent, the descent, and the stretched bottom at a
breakpoint (lines 766-770). -/
def breakAscDesc (ctx : ACtx) (s1 : AState) : ℚ × ℚ × ℚ :=
  let h := breakHeights ctx s1
  (if 0 < s1.j then h.ascent * ctx.lineSpacing else h.ascent,
   h.descent, h.bottom * ctx.lineSpacing)

/-- The breakpoint branch of the assembly loop (lines 736-798).  On vertical
overflow (height nonzero and exceeded) the in-progress line is discarded and
the loop exits; the stored text is cut to the byte prefix of the log ending
at the cluster of the glyph at the current index i — since i has already
consumed the discarded line's glyphs, that prefix runs through the end of the
discarded line (the whole log at the final sentinel break), and on a
first-line overflow (j = 0) the text becomes empty and y is reset.  Otherwise
the line's baseline is committed and a new line starts with the alignment
shift.  The boolean is the Go break. -/
def assembleBreak (ctx : ACtx) (s : AState) (position : ℕ) (item : Item) :
    AState × Bool :=
  let s1 := breakSpanUpdates ctx s item
  let ad := breakAscDesc ctx s1
  if ctx.height ≠ 0 ∧ ctx.height < s1.y + ad.1 + ad.2.1 then
    ({ s1 with
        lines := s1.lines.dropLast,
        txt := if 0 < s1.j then byteTake ctx.log (s1.glyphsArr.getD s1.i default).cluster
               else [],
        y := if 0 < s1.j then s1.y else 0 }, true)
  else
    let lines2 := modifyAt s1.lines s1.j (fun ln => { ln with y := s1.y + ad.1 })
    let y2 := s1.y + ad.1 + ad.2.2
    if position = ctx.itemsLen - 1 then
      ({ s1 with lines := lines2, y := y2 }, true)
    else
      let j2 := if s1.j + 1 < s1.breaks.length then s1.j + 1 else s1.j
      let x2 :=
        if ctx.halign = .right then ctx.width - (bpAt s1.breaks j2).width
        else if ctx.halign = .center ∨ ctx.halign = .middle then
          (ctx.width - (bpAt s1.breaks j2).width) / 2
        else 0
      ({ s1 with lines := lines2 ++ [⟨0, []⟩], j := j2, x := x2, y := y2 }, false)

/-- The backward scan of the span-reorder block (lines 862-867): walk first
down from last while the span before it is right-to-left or bottom-to-top. -/
def scanFirst (spans : List TextSpan) : ℕ → ℕ
  | 0 => 0
  | first + 1 =>
      if (spans.getD first default).direction ≠ .rightToLeft ∧
         (spans.getD first default).direction ≠ .bottomToTop then first + 1
      else scanFirst spans first

/-- The X reshuffle of the span-reorder block (lines 869-874): the new span
takes the previous span's X, and the spans from first up to (but excluding)
last shift right by w plus the leading space. -/
def reorderSpans (w space : ℚ) (first last : ℕ) (spans0 : List TextSpan) :
    List TextSpan :=
  let spans1 := modifyAt spans0 last
    (fun sp => { sp with x := (spans0.getD (last - 1) default).x })
  mapWithIdx (fun i sp => if first ≤ i ∧ i < last then { sp with x := sp.x + w + space }
              else sp) spans1 0

/-- The width, object placements and face of a glyph segment (lines 808-836):
a text segment measures its glyphs against its run's face; an object segment
accumulates object widths (heights on vertical axes), placing each object,
and borrows the previous span's face (or the default face). -/
def closeWOF (ctx : ACtx) (s : AState) (a b : ℕ) (k : ℤ) : ℚ × List TSObject × ℕ :=
  match faceAt (ctx.runs.map FaceRun.face) k with
  | some f => (ctx.env.textWidth f (listSlice s.glyphsArr a b), [], f)
  | none =>
      let face1 :=
        if 0 < (lineAt s.lines s.j).spans.length then
          ((lineAt s.lines s.j).spans.getLastD default).face
        else ctx.defaultFace
      let placed := (listSlice s.glyphsArr a b).foldl
        (fun (acc : ℚ × List TSObject) g =>
          let obj := ctx.objects.getD g.id default
          if ctx.rtMode = .horizontalTB then
            (acc.1 + obj.width, acc.2 ++ [{ obj with x := acc.1 }])
          else
            (acc.1 + obj.height,
             acc.2 ++ [{ obj with x := -obj.width / 2, y := -acc.1 - obj.height }]))
        (0, [])
      (placed.1, placed.2, face1)

/-- The glyph array after the un-reversal of a right-to-left or bottom-to-top
segment (lines 838-844). -/
def closeArr (ctx : ACtx) (s : AState) (a b : ℕ) (k : ℤ) : List Glyph :=
  if dirAt ctx.directions k = .rightToLeft ∨ dirAt ctx.directions k = .bottomToTop then
    revRange s.glyphsArr a b
  else s.glyphsArr

/-- The span built for the segment [a, b) (lines 846-856): clusters are read
before the un-reversal, the glyphs after it. -/
def closeSpan (ctx : ACtx) (s : AState) (a b : ℕ) (k : ℤ) (dx : ℚ) : TextSpan :=
  { x := s.x + dx, width := (closeWOF ctx s a b k).1, face := (closeWOF ctx s a b k).2.2,
    txt := byteSlice ctx.log (s.glyphsArr.getD a default).cluster
      ((s.glyphsArr.getD b default).cluster),
    glyphs := listSlice (closeArr ctx s a b k) a b,
    direction := dirAt ctx.directions k, rot := rotAt ctx.rotations k,
    objects := (closeWOF ctx s a b k).2.1 }

/-- The span-reorder step applied to line j after a right-to-left or
bottom-to-top span is appended (lines 858-875): scan back over the trailing
directional spans and reshuffle their X positions; xEnd is the X at which the
new span was placed (x + dx) and w its width. -/
def reorderLine (xEnd w : ℚ) (ln : Line) : Line :=
  let last := ln.spans.length - 1
  let first := scanFirst ln.spans last
  if first < last then
    let space := xEnd - (ln.spans.getD first default).x - (ln.spans.getD first default).width
    { ln with spans := reorderSpans w space first last ln.spans }
  else ln

/-- Close the glyph segment [a, b) inside a box item (lines 808-879): compute
the span, un-reverse a right-to-left or bottom-to-top glyph range, append the
span to line j, and reorder the trailing right-to-left/bottom-to-top spans;
returns the new state and the width w. -/
def closeSegment (ctx : ACtx) (s : AState) (a b : ℕ) (k : ℤ) (dx : ℚ) :
    AState × ℚ :=
  let span := closeSpan ctx s a b k dx
  let fonts1 :=
    match faceAt (ctx.runs.map FaceRun.face) k with
    | some f =>
        if ctx.env.faceFont f ∈ s.fontsUsed then s.fontsUsed
        else s.fontsUsed ++ [ctx.env.faceFont f]
    | none => s.fontsUsed
  let lines1 := modifyAt s.lines s.j (fun ln => { ln with spans := ln.spans ++ [span] })
  let lines2 :=
    if dirAt ctx.directions k = .rightToLeft ∨ dirAt ctx.directions k = .bottomToTop then
      modifyAt lines1 s.j (reorderLine (s.x + dx) (closeWOF ctx s a b k).1)
    else lines1
  ({ s with glyphsArr := closeArr ctx s a b k, lines := lines2, fontsUsed := fonts1 },
   (closeWOF ctx s a b k).1)

/-- The inner loop of the box branch (lines 802-881): walk b over the box's
glyph range, closing a segment whenever the run index changes or the range
ends.  The fuel is the iteration count (the box's size). -/
def buildBoxGo (ctx : ACtx) (iStart size : ℕ) :
    ℕ → ℕ → ℕ → ℤ → ℚ → AState → AState
  | 0, _, _, _, _, s => s
  | fuel + 1, b, a, k, dx, s =>
      if b ≤ iStart + size then
        let nextK := indexerIndex ctx.glyphIndices b
        if nextK ≠ k ∨ b = iStart + size then
          let res := closeSegment ctx s a b k dx
          buildBoxGo ctx iStart size fuel (b + 1) b nextK (dx + res.2) res.1
        else
          buildBoxGo ctx iStart size fuel (b + 1) a k dx s
      else s

/-- The box branch (lines 799-882): run the inner loop from the box's start
and add the box width to x. -/
def assembleBox (ctx : ACtx) (s : AState) (item : Item) : AState :=
  let s1 := buildBoxGo ctx s.i item.size (item.size + 1) (s.i + 1) s.i
    (indexerIndex ctx.glyphIndices s.i) 0 s
  { s1 with x := s1.x + item.width }

/-- The glue branch (lines 883-899): adjust the glue width by the line's
ratio (an infinite stretch or shrink cannot arise over ℚ, so the IsInf guards
of lines 886 and 889 are vacuous here), advance x, and append the glue text
to the previous span. -/
def assembleGlue (_ctx : ACtx) (s : AState) (item : Item) : AState :=
  let rt0 := (bpAt s.breaks s.j).rat
  let w := if 0 ≤ rt0 then item.width + rt0 * item.stretch
           else item.width + rt0 * item.shrink
  let lines2 :=
    if 0 < (lineAt s.lines s.j).spans.length then
      modifyAt s.lines s.j (fun ln =>
        { ln with spans := modifyLast ln.spans (fun sp =>
            { sp with txt := sp.txt ++
                (listSlice s.glyphsArr s.i (s.i + item.size)).map Glyph.text }) })
    else s.lines
  { s with x := s.x + w, lines := lines2 }

/-- One iteration of the assembly loop body (lines 735-902).  The boolean is
the Go break; a surviving iteration consumes the item's glyphs (line 901). -/
def assembleStep (ctx : ACtx) (s : AState) (position : ℕ) (item : Item) :
    AState × Bool :=
  let r :=
    if (position : ℤ) = (bpAt s.breaks s.j).position then
      assembleBreak ctx s position item
    else if item.itemType = .box then (assembleBox ctx s item, false)
    else if item.itemType = .glue then (assembleGlue ctx s item, false)
    else (s, false)
  if r.2 then r else ({ r.1 with i := r.1.i + item.size }, false)

/-- The assembly loop (lines 735-902). -/
def assembleGo (ctx : ACtx) : List Item → ℕ → AState → AState
  | [], _, s => s
  | item :: rest, position, s =>
      let r := assembleStep ctx s position item
      if r.2 then r.1 else assembleGo ctx rest (position + 1) r.1

/-- The epilogue of ToText (lines 904-938): trim the last line's gap, apply
vertical alignment (Top and Bottom swapped for VerticalRL), and mirror the
baselines for VerticalRL. -/
def toTextPost (ctx : ACtx) (valign : TextAlign) (s : AState) : List Line :=
  let y1 :=
    if 0 < s.j then
      let h := lineHeights ctx.env ctx.rtMode (lineAt s.lines (s.j - 1))
      s.y + (-h.bottom * ctx.lineSpacing + h.descent)
    else s.y
  let valign2 :=
    if ctx.rtMode = .verticalRL then
      if valign = .top then TextAlign.bottom
      else if valign = .bottom then TextAlign.top
      else valign
    else valign
  let lines1 :=
    if valign2 = .center ∨ valign2 = .middle ∨ valign2 = .bottom then
      let dy0 := ctx.height - y1
      let dy := if valign2 = .center ∨ valign2 = .middle then dy0 / 2 else dy0
      s.lines.map (fun ln => { ln with y := ln.y + dy })
    else if valign2 = .justify then
      let ddy := (ctx.height - y1) / ((s.lines.length : ℚ) - 1)
      mapWithIdx (fun idx ln => { ln with y := ln.y + ddy * idx }) s.lines 0
    else s.lines
  if ctx.rtMode = .verticalRL then lines1.map (fun ln => { ln with y := ctx.height - ln.y })
  else lines1

/-- The final Text value (src/text.go lines 118-127, 715-724). -/
structure TextOut where
  lines : List Line
  fontsUsed : List ℕ
  mode : WritingMode
  orient : TextOrient
  width : ℚ
  height : ℚ
  txt : List Char
  overflows : Bool

/-- The box/alignment swap for vertical writing modes (lines 605-618),
returning (width, height, halign, valign). -/
def toTextSwap (mode : WritingMode) (width0 height0 : ℚ)
    (halign0 valign0 : TextAlign) : ℚ × ℚ × TextAlign × TextAlign :=
  if mode ≠ .horizontalTB then
    let ha1 := if valign0 = .top then TextAlign.left
               else if valign0 = .bottom then TextAlign.right else valign0
    let va1 := if halign0 = .left then TextAlign.top
               else if halign0 = .right then TextAlign.bottom else halign0
    (height0, width0, ha1, va1)
  else (width0, height0, halign0, valign0)

/-- The item stream ToText feeds to the breaker (lines 620-627). -/
def toTextItems (env : Env) (rt : RichText) (indent : ℚ) (halign : TextAlign) :
    List Item :=
  let align := if halign = .justify then BreakAlign.justified else BreakAlign.left
  env.glyphsToItems (shapeAll env rt (itemizeByFace env rt)).glyphs indent align

/-- The breakpoints and overflow flag of ToText (lines 629-647): Linebreak
when the target width is nonzero, else the zero-width fallback with the flag
left false. -/
def toTextBreaks (env : Env) (items : List Item) (width : ℚ) :
    List Breakpoint × Bool :=
  if width ≠ 0 then
    let lb := env.linebreak items width 0
    (lb.1, ¬ lb.2)
  else (zeroWidthBreaks items, false)

/-- ToText (src/text.go lines 483-940), with the external collaborators
supplied by env.  The second component is the receiver as the call leaves it:
every access to the receiver in the source is a read, and the embedding
threads it through unchanged (claim C9). -/
def toText (env : Env) (rt : RichText) (width0 height0 : ℚ)
    (halign0 valign0 : TextAlign) (indent lineStretch : ℚ) :
    TextOut × RichText :=
  let log := rt.buffer
  let runs := itemizeByFace env rt
  let so := shapeAll env rt runs
  let sw := toTextSwap rt.mode width0 height0 halign0 valign0
  let items0 := toTextItems env rt indent sw.2.2.1
  let bk := toTextBreaks env items0 sw.1
  let co := coalesce items0 bk.1
  let glyphsExt := so.glyphs ++ [{ (default : Glyph) with cluster := byteLen log }]
  let ctx : ACtx :=
    ⟨env, rt.mode, rt.orient, rt.defaultFace, rt.objects, log, runs,
     so.glyphIndices, so.directions, so.rotations,
     sw.1, sw.2.1, sw.2.2.1, 1 + lineStretch, co.1.length⟩
  let x0 :=
    if sw.2.2.1 = .right then sw.1 - (bpAt co.2 0).width
    else if sw.2.2.1 = .center ∨ sw.2.2.1 = .middle then (sw.1 - (bpAt co.2 0).width) / 2
    else 0
  let s0 : AState := ⟨[⟨0, []⟩], [], log, glyphsExt, co.2, 0, 0, x0, 0⟩
  let sF := assembleGo ctx co.1 0 s0
  ({ lines := toTextPost ctx sw.2.2.2 sF, fontsUsed := sF.fontsUsed, mode := rt.mode,
     orient := rt.orient, width := sw.1, height := sw.2.1, txt := sF.txt,
     overflows := bk.2 }, rt)

/-! ## Locality and reversal lemmas for the assembly (claim C1) -/

theorem mapWithIdx_length (f : ℕ → α → α) :
    ∀ (l : List α) (n : ℕ), (mapWithIdx f l n).length = l.length := by
  intro l
  induction l with
  | nil => intro n; rfl
  | cons a rest ih => intro n; simp [mapWithIdx, ih]

theorem getElem?_mapWithIdx (f : ℕ → α → α) :
    ∀ (l : List α) (n i : ℕ), (mapWithIdx f l n)[i]? = (l[i]?).map (f (n + i)) := by
  intro l
  induction l with
  | nil => intro n i; simp [mapWithIdx]
  | cons a rest ih =>
    intro n i
    cases i with
    | zero => simp [mapWithIdx]
    | succ i =>
      simp only [mapWithIdx, List.getElem?_cons_succ]
      rw [ih (n + 1) i]
      have hni : n + 1 + i = n + (i + 1) := by omega
      rw [hni]

theorem modifyAt_length (f : α → α) :
    ∀ (l : List α) (i : ℕ), (modifyAt l i f).length = l.length := by
  intro l
  induction l with
  | nil => intro i; rfl
  | cons a rest ih =>
    intro i
    cases i with
    | zero => rfl
    | succ i => simp [modifyAt, ih]

theorem getD_modifyAt (f : α → α) (d : α) :
    ∀ (l : List α) (i : ℕ), i < l.length → (modifyAt l i f).getD i d = f (l.getD i d) := by
  intro l
  induction l with
  | nil => intro i h; simp at h
  | cons a rest ih =>
    intro i h
    cases i with
    | zero => rfl
    | succ i =>
      simp only [List.length_cons] at h
      simp only [modifyAt, List.getD_cons_succ]
      exact ih i (by omega)

theorem getElem?_listSlice (l : List α) (a b i : ℕ) :
    (listSlice l a b)[i]? = if i < b - a then l[a + i]? else none := by
  unfold listSlice
  rw [List.getElem?_take]
  split
  · rw [List.getElem?_drop]
  · rfl

theorem listSlice_length_of_le (l : List α) (a b : ℕ) (hb : b ≤ l.length) :
    (listSlice l a b).length = b - a := by
  unfold listSlice
  simp [List.length_take, List.length_drop]
  omega

theorem revRange_length (l : List Glyph) (a b : ℕ) :
    (revRange l a b).length = l.length := by
  unfold revRange
  exact mapWithIdx_length _ l 0

theorem listSlice_revRange_outside (l : List Glyph) (a b a₀ b₀ : ℕ) (h : b ≤ a₀) :
    listSlice (revRange l a b) a₀ b₀ = listSlice l a₀ b₀ := by
  apply List.ext_getElem?
  intro i
  rw [getElem?_listSlice, getElem?_listSlice]
  split
  · rw [revRange, getElem?_mapWithIdx]
    have hc : ¬(a ≤ 0 + (a₀ + i) ∧ 0 + (a₀ + i) < b) := by omega
    cases hl : l[a₀ + i]? with
    | none => simp
    | some g =>
      simp only [Option.map_some']
      rw [if_neg hc]
  · rfl

theorem listSlice_revRange_self (l : List Glyph) (a b : ℕ) (hb : b ≤ l.length) :
    listSlice (revRange l a b) a b = (listSlice l a b).reverse := by
  apply List.ext_getElem?
  intro i
  have hlen : (listSlice l a b).length = b - a := listSlice_length_of_le l a b hb
  by_cases hi : i < b - a
  · rw [getElem?_listSlice, if_pos hi, revRange, getElem?_mapWithIdx]
    have hin : a + i < l.length := by omega
    rw [List.getElem?_eq_getElem hin]
    have hrev : i < (listSlice l a b).reverse.length := by
      rw [List.length_reverse, hlen]; exact hi
    rw [List.getElem?_reverse (by rw [hlen]; exact hi), hlen]
    rw [getElem?_listSlice, if_pos (by omega)]
    have hc : a ≤ 0 + (a + i) ∧ 0 + (a + i) < b := by omega
    have hin2 : a + (b - a - 1 - i) < l.length := by omega
    rw [List.getElem?_eq_getElem hin2]
    simp only [Option.map_some', Option.some.injEq, if_pos hc]
    rw [List.getD_eq_getElem l default (by omega : a + b - 1 - (0 + (a + i)) < l.length)]
    congr 1
    omega
  · rw [getElem?_listSlice, if_neg hi]
    have : (listSlice l a b).reverse.length ≤ i := by
      rw [List.length_reverse, hlen]; omega
    rw [List.getElem?_eq_none this]

theorem exMem_modifyAt (P : α → Prop) (f : α → α) (hf : ∀ x, P x → P (f x)) :
    ∀ (l : List α) (i : ℕ), (∃ x ∈ l, P x) → ∃ x ∈ modifyAt l i f, P x := by
  intro l
  induction l with
  | nil => intro i h; simp at h
  | cons a rest ih =>
    intro i h
    rcases h with ⟨x, hx, hP⟩
    cases i with
    | zero =>
      rcases List.mem_cons.mp hx with rfl | hx'
      · exact ⟨f x, List.mem_cons_self _ _, hf x hP⟩
      · exact ⟨x, List.mem_cons_of_mem _ hx', hP⟩
    | succ i =>
      rcases List.mem_cons.mp hx with rfl | hx'
      · exact ⟨x, List.mem_cons_self _ _, hP⟩
      · rcases ih i ⟨x, hx', hP⟩ with ⟨y, hy, hPy⟩
        exact ⟨y, List.mem_cons_of_mem _ hy, hPy⟩

theorem exMem_mapWithIdx (P : α → Prop) (f : ℕ → α → α) (hf : ∀ i x, P x → P (f i x)) :
    ∀ (l : List α) (n : ℕ), (∃ x ∈ l, P x) → ∃ x ∈ mapWithIdx f l n, P x := by
  intro l
  induction l with
  | nil => intro n h; simp at h
  | cons a rest ih =>
    intro n h
    rcases h with ⟨x, hx, hP⟩
    rcases List.mem_cons.mp hx with rfl | hx'
    · exact ⟨f n x, List.mem_cons_self _ _, hf n x hP⟩
    · rcases ih (n + 1) ⟨x, hx', hP⟩ with ⟨y, hy, hPy⟩
      exact ⟨y, List.mem_cons_of_mem _ hy, hPy⟩

theorem closeSegment_j (ctx : ACtx) (s : AState) (a b : ℕ) (k : ℤ) (dx : ℚ) :
    ((closeSegment ctx s a b k dx).1).j = s.j := rfl

theorem closeSegment_linesLength (ctx : ACtx) (s : AState) (a b : ℕ) (k : ℤ) (dx : ℚ) :
    ((closeSegment ctx s a b k dx).1).lines.length = s.lines.length := by
  simp only [closeSegment]
  split
  · rw [modifyAt_length, modifyAt_length]
  · rw [modifyAt_length]

theorem closeArr_length (ctx : ACtx) (s : AState) (a b : ℕ) (k : ℤ) :
    (closeArr ctx s a b k).length = s.glyphsArr.length := by
  unfold closeArr
  split
  · exact revRange_length _ _ _
  · rfl

theorem closeSegment_arrLength (ctx : ACtx) (s : AState) (a b : ℕ) (k : ℤ) (dx : ℚ) :
    ((closeSegment ctx s a b k dx).1).glyphsArr.length = s.glyphsArr.length := by
  simp only [closeSegment]
  exact closeArr_length ctx s a b k

theorem closeSegment_slice (ctx : ACtx) (s : AState) (a b a₀ b₀ : ℕ) (k : ℤ) (dx : ℚ)
    (h : b ≤ a₀) :
    listSlice ((closeSegment ctx s a b k dx).1).glyphsArr a₀ b₀ =
      listSlice s.glyphsArr a₀ b₀ := by
  simp only [closeSegment]
  unfold closeArr
  split
  · exact listSlice_revRange_outside _ a b a₀ b₀ h
  · rfl

theorem reorderSpans_mem (Q : TextSpan → Prop)
    (hx : ∀ sp q, Q sp → Q { sp with x := q })
    (w space : ℚ) (first last : ℕ) (spans0 : List TextSpan)
    (h : ∃ sp ∈ spans0, Q sp) :
    ∃ sp ∈ reorderSpans w space first last spans0, Q sp := by
  simp only [reorderSpans]
  refine exMem_mapWithIdx Q _ ?_ _ 0 (exMem_modifyAt Q _ (fun sp hsp => hx sp _ hsp) _ _ h)
  intro i sp hsp
  split
  · exact hx sp _ hsp
  · exact hsp

theorem reorderLine_mem (Q : TextSpan → Prop)
    (hx : ∀ sp q, Q sp → Q { sp with x := q })
    (xEnd w : ℚ) (ln : Line) (h : ∃ sp ∈ ln.spans, Q sp) :
    ∃ sp ∈ (reorderLine xEnd w ln).spans, Q sp := by
  simp only [reorderLine]
  split
  · exact reorderSpans_mem Q hx _ _ _ _ _ h
  · exact h

theorem closeSegment_mem (Q : TextSpan → Prop)
    (hx : ∀ sp q, Q sp → Q { sp with x := q })
    (ctx : ACtx) (s : AState) (a b : ℕ) (k : ℤ) (dx : ℚ)
    (hj : s.j < s.lines.length)
    (h : ∃ sp ∈ (lineAt s.lines s.j).spans, Q sp) :
    ∃ sp ∈ (lineAt ((closeSegment ctx s a b k dx).1).lines s.j).spans, Q sp := by
  simp only [closeSegment]
  have h1 : ∃ sp ∈ (lineAt (modifyAt s.lines s.j
      (fun ln => { ln with spans := ln.spans ++ [closeSpan ctx s a b k dx] })) s.j).spans,
      Q sp := by
    rw [lineAt, getD_modifyAt _ _ s.lines s.j hj]
    obtain ⟨sp, hsp, hQ⟩ := h
    exact ⟨sp, List.mem_append_left _ hsp, hQ⟩
  split
  · rw [lineAt, getD_modifyAt _ _ _ s.j (by rw [modifyAt_length]; exact hj)]
    exact reorderLine_mem Q hx _ _ _ h1
  · exact h1

theorem closeSegment_intro (ctx : ACtx) (s : AState) (a b : ℕ) (k : ℤ) (dx : ℚ)
    (sList : List Glyph)
    (hdir : dirAt ctx.directions k = .rightToLeft ∨ dirAt ctx.directions k = .bottomToTop)
    (hb : b ≤ s.glyphsArr.length)
    (hslice : listSlice s.glyphsArr a b = revSwap sList)
    (hj : s.j < s.lines.length) :
    ∃ sp ∈ (lineAt ((closeSegment ctx s a b k dx).1).lines s.j).spans,
      sp.glyphs = sList ∧ sp.direction = dirAt ctx.directions k := by
  have hglyphs : (closeSpan ctx s a b k dx).glyphs = sList := by
    show listSlice (closeArr ctx s a b k) a b = sList
    rw [closeArr, if_pos hdir, listSlice_revRange_self s.glyphsArr a b hb, hslice,
      revSwap_eq_reverse, List.reverse_reverse]
  have h1 : ∃ sp ∈ (lineAt (modifyAt s.lines s.j
      (fun ln => { ln with spans := ln.spans ++ [closeSpan ctx s a b k dx] })) s.j).spans,
      sp.glyphs = sList ∧ sp.direction = dirAt ctx.directions k := by
    rw [lineAt, getD_modifyAt _ _ s.lines s.j hj]
    exact ⟨closeSpan ctx s a b k dx,
      List.mem_append_right _ (List.mem_singleton.mpr rfl), hglyphs, rfl⟩
  simp only [closeSegment]
  rw [if_pos hdir, lineAt, getD_modifyAt _ _ _ s.j (by rw [modifyAt_length]; exact hj)]
  exact reorderLine_mem _ (fun sp q hq => hq) _ _ _ h1

theorem buildBoxGo_mem (Q : TextSpan → Prop)
    (hx : ∀ sp q, Q sp → Q { sp with x := q })
    (ctx : ACtx) (iStart size : ℕ) :
    ∀ (fuel b a : ℕ) (k : ℤ) (dx : ℚ) (s : AState),
      s.j < s.lines.length →
      (∃ sp ∈ (lineAt s.lines s.j).spans, Q sp) →
      (buildBoxGo ctx iStart size fuel b a k dx s).j = s.j ∧
      (buildBoxGo ctx iStart size fuel b a k dx s).lines.length = s.lines.length ∧
      ∃ sp ∈ (lineAt (buildBoxGo ctx iStart size fuel b a k dx s).lines s.j).spans, Q sp := by
  intro fuel
  induction fuel with
  | zero => intro b a k dx s hj h; exact ⟨rfl, rfl, h⟩
  | succ f ih =>
    intro b a k dx s hj h
    simp only [buildBoxGo]
    split
    · split
      · have hj' : ((closeSegment ctx s a b k dx).1).j <
            ((closeSegment ctx s a b k dx).1).lines.length := by
          rw [closeSegment_j, closeSegment_linesLength]; exact hj
        have h' := closeSegment_mem Q hx ctx s a b k dx hj h
        obtain ⟨hj2, hl2, hm2⟩ := ih (b + 1) b (indexerIndex ctx.glyphIndices b)
          (dx + (closeSegment ctx s a b k dx).2) (closeSegment ctx s a b k dx).1 hj' h'
        refine ⟨hj2.trans (closeSegment_j ctx s a b k dx), ?_, hm2⟩
        rw [hl2, closeSegment_linesLength]
      · exact ih (b + 1) a k dx s hj h
    · exact ⟨rfl, rfl, h⟩

/-- The inner loop of the box branch closes a maximal right-to-left (or
bottom-to-top) run [a₀, b₀) as one segment and the span it appends carries the
un-reversed glyph list; the phase disjunction tracks the walk before the run,
inside the run, and after the span exists. -/
theorem buildBoxGo_rtl (ctx : ACtx) (iStart size a₀ b₀ : ℕ) (k₀ : ℤ) (sList : List Glyph)
    (hk : ∀ g, a₀ ≤ g → g < b₀ → indexerIndex ctx.glyphIndices g = k₀)
    (hdir : dirAt ctx.directions k₀ = .rightToLeft ∨ dirAt ctx.directions k₀ = .bottomToTop)
    (hR : b₀ = iStart + size ∨ indexerIndex ctx.glyphIndices b₀ ≠ k₀)
    (hL : a₀ = iStart ∨ indexerIndex ctx.glyphIndices (a₀ - 1) ≠ k₀)
    (hab : a₀ < b₀) (hbs : b₀ ≤ iStart + size) :
    ∀ (fuel b a : ℕ) (k : ℤ) (dx : ℚ) (s : AState),
      fuel + b = iStart + size + 2 →
      s.j < s.lines.length →
      b₀ ≤ s.glyphsArr.length →
      ((iStart < b ∧ b ≤ a₀ ∧ a < b ∧ k = indexerIndex ctx.glyphIndices (b - 1) ∧
          listSlice s.glyphsArr a₀ b₀ = revSwap sList) ∨
       (a = a₀ ∧ a₀ < b ∧ b ≤ b₀ ∧ k = k₀ ∧
          listSlice s.glyphsArr a₀ b₀ = revSwap sList) ∨
       (∃ sp ∈ (lineAt s.lines s.j).spans,
          sp.glyphs = sList ∧ sp.direction = dirAt ctx.directions k₀)) →
      ∃ sp ∈ (lineAt (buildBoxGo ctx iStart size fuel b a k dx s).lines s.j).spans,
        sp.glyphs = sList ∧ sp.direction = dirAt ctx.directions k₀ := by
  intro fuel
  induction fuel with
  | zero =>
    intro b a k dx s hfb hj harr hphase
    rcases hphase with ⟨_, h2, _⟩ | ⟨_, _, h3, _⟩ | hdone
    · omega
    · omega
    · exact hdone
  | succ f ih =>
    intro b a k dx s hfb hj harr hphase
    rcases hphase with ⟨hib, hba, hab2, hk1, hslice⟩ | ⟨ha, hb1, hb2, hk1, hslice⟩ | hdone
    · -- before the run: b ≤ a₀
      simp only [buildBoxGo]
      rw [if_pos (by omega : b ≤ iStart + size)]
      have hj' : ((closeSegment ctx s a b k dx).1).j <
          ((closeSegment ctx s a b k dx).1).lines.length := by
        rw [closeSegment_j, closeSegment_linesLength]; exact hj
      have harr' : b₀ ≤ ((closeSegment ctx s a b k dx).1).glyphsArr.length := by
        rw [closeSegment_arrLength]; exact harr
      by_cases hba0 : b = a₀
      · -- the segment before the run closes here and the run starts
        have hcond : indexerIndex ctx.glyphIndices b ≠ k ∨ b = iStart + size := by
          left
          rw [hba0, hk a₀ le_rfl hab, hk1, hba0]
          rcases hL with hL0 | hL0
          · omega
          · exact fun he => hL0 he.symm
        rw [if_pos hcond]
        refine ih (b + 1) b (indexerIndex ctx.glyphIndices b) _ _ (by omega) hj' harr' ?_
        right; left
        refine ⟨hba0, by omega, by omega, by rw [hba0]; exact hk a₀ le_rfl hab, ?_⟩
        rw [closeSegment_slice ctx s a b a₀ b₀ k dx (le_of_eq hba0)]
        exact hslice
      · -- still before the run
        by_cases hcond : indexerIndex ctx.glyphIndices b ≠ k ∨ b = iStart + size
        · rw [if_pos hcond]
          refine ih (b + 1) b (indexerIndex ctx.glyphIndices b) _ _ (by omega) hj' harr' ?_
          left
          refine ⟨by omega, by omega, by omega, by simp, ?_⟩
          rw [closeSegment_slice ctx s a b a₀ b₀ k dx (by omega)]
          exact hslice
        · rw [if_neg hcond]
          push_neg at hcond
          refine ih (b + 1) a k dx s (by omega) hj harr ?_
          left
          refine ⟨by omega, by omega, by omega, ?_, hslice⟩
          have : b + 1 - 1 = b := by omega
          rw [this, hcond.1]
    · -- inside the run: a = a₀, a₀ < b ≤ b₀
      simp only [buildBoxGo]
      rw [if_pos (by omega : b ≤ iStart + size)]
      by_cases hbb0 : b = b₀
      · -- the run closes here
        have hcond : indexerIndex ctx.glyphIndices b ≠ k ∨ b = iStart + size := by
          rcases hR with h | h
          · right; omega
          · left; rw [hbb0, hk1]; exact h
        rw [if_pos hcond]
        have hj' : ((closeSegment ctx s a b k dx).1).j <
            ((closeSegment ctx s a b k dx).1).lines.length := by
          rw [closeSegment_j, closeSegment_linesLength]; exact hj
        have harr' : b₀ ≤ ((closeSegment ctx s a b k dx).1).glyphsArr.length := by
          rw [closeSegment_arrLength]; exact harr
        refine ih (b + 1) b (indexerIndex ctx.glyphIndices b) _ _ (by omega) hj' harr' ?_
        right; right
        rw [← hk1]
        exact closeSegment_intro ctx s a b k dx sList (by rw [hk1]; exact hdir) (by omega)
          (by rw [ha, hbb0]; exact hslice) hj
      · -- the run continues
        have hcond : ¬(indexerIndex ctx.glyphIndices b ≠ k ∨ b = iStart + size) := by
          rw [hk b (by omega) (by omega), hk1]
          push_neg
          exact ⟨rfl, by omega⟩
        rw [if_neg hcond]
        refine ih (b + 1) a k dx s (by omega) hj harr ?_
        right; left
        exact ⟨ha, by omega, by omega, hk1, hslice⟩
    · -- the span already exists: the rest of the loop only adds spans
      obtain ⟨_, _, hm⟩ := buildBoxGo_mem
        (fun sp => sp.glyphs = sList ∧ sp.direction = dirAt ctx.directions k₀)
        (fun sp q hq => hq) ctx iStart size (f + 1) b a k dx s hj hdone
      exact hm

theorem assembleBox_rtl (ctx : ACtx) (s : AState) (item : Item) (a₀ b₀ : ℕ) (k₀ : ℤ)
    (sList : List Glyph)
    (h1 : s.i ≤ a₀) (h2 : a₀ < b₀) (h3 : b₀ ≤ s.i + item.size)
    (h4 : ∀ g, a₀ ≤ g → g < b₀ → indexerIndex ctx.glyphIndices g = k₀)
    (h5 : a₀ = s.i ∨ indexerIndex ctx.glyphIndices (a₀ - 1) ≠ k₀)
    (h6 : b₀ = s.i + item.size ∨ indexerIndex ctx.glyphIndices b₀ ≠ k₀)
    (h7 : dirAt ctx.directions k₀ = .rightToLeft ∨ dirAt ctx.directions k₀ = .bottomToTop)
    (h8 : s.j < s.lines.length) (h9 : b₀ ≤ s.glyphsArr.length)
    (h10 : listSlice s.glyphsArr a₀ b₀ = revSwap sList) :
    ∃ sp ∈ (lineAt (assembleBox ctx s item).lines s.j).spans,
      sp.glyphs = sList ∧ sp.direction = dirAt ctx.directions k₀ := by
  show ∃ sp ∈ (lineAt (buildBoxGo ctx s.i item.size (item.size + 1) (s.i + 1) s.i
      (indexerIndex ctx.glyphIndices s.i) 0 s).lines s.j).spans,
    sp.glyphs = sList ∧ sp.direction = dirAt ctx.directions k₀
  apply buildBoxGo_rtl ctx s.i item.size a₀ b₀ k₀ sList h4 h7 h6 h5 h2 h3
    (item.size + 1) (s.i + 1) s.i (indexerIndex ctx.glyphIndices s.i) 0 s (by omega) h8 h9
  by_cases h0 : a₀ = s.i
  · right; left
    exact ⟨h0.symm, by omega, by omega, h4 s.i (by omega) (by omega), h10⟩
  · left
    refine ⟨by omega, by omega, by omega, ?_, h10⟩
    simp

/-! ## A concrete end-to-end scenario (claims C2 and C9) -/

/-- Modelled from the spec: GlyphsToItems (§4.4 of the spec; the text
package's item builder is not under src/).  A leading zero-stretch box for a
nonzero indent; a breakable space becomes glue with stretch and shrink
derived from the alignment (a justified line stretches more, both finite); a
soft hyphen becomes a penalty of finite cost carrying the hyphen width (the
embedded Item keeps only the fields ToText reads, so the flag is not
recorded); a paragraph separator becomes a forced-break penalty; every other
glyph a box of width its advance; and a closing forced-break penalty.
Consecutive glues are not merged here — the coalescer handles that. -/
def specGlyphsToItems (adv : Glyph → ℚ) (glyphs : List Glyph) (indent : ℚ)
    (align : BreakAlign) : List Item :=
  (if indent ≠ 0 then [⟨.box, indent, 0, 0, 0, 0⟩] else []) ++
  glyphs.map (fun g =>
    if g.text = ' ' then
      if align = .justified then ⟨.glue, adv g, adv g * 2, adv g / 3, 0, 1⟩
      else ⟨.glue, adv g, adv g / 2, adv g / 3, 0, 1⟩
    else if g.text = Char.ofNat 173 then ⟨.penalty, adv g, 0, 0, 100, 1⟩
    else if IsParagraphSeparator g.text then ⟨.penalty, 0, 0, 0, -Infinity, 1⟩
    else ⟨.box, adv g, 0, 0, 0, 1⟩) ++
  [⟨.penalty, 0, 0, 0, -Infinity, 0⟩]

/-- The concrete environment of the end-to-end scenario: unit metrics, a
shaper emitting one glyph of advance one per rune with byte clusters, and the
spec-modelled item builder; Linebreak is never consulted (the scenario's
target width is zero). -/
def envC2 : Env where
  lookupScript := fun _ => .latin
  embeddingLevels := fun l => l.map fun _ => 0
  shape := fun _f text _ppem dir _script =>
    ((charsWithBytePos text 0).map (fun pc =>
      { (default : Glyph) with
        id := pc.2.toNat, cluster := pc.1, xAdvance := 1, text := pc.2 }), dir)
  glyphsToItems := specGlyphsToItems (fun g => (g.xAdvance : ℚ))
  linebreak := fun _ _ _ => ([], true)
  faceDirection := fun _ => .leftToRight
  facePPEM := fun _ => 1
  faceSize := fun _ => 1
  faceFont := fun f => f
  faceHeights := fun _ _ => ⟨1, 1, 1, 1⟩
  faceAscent := fun _ => 1
  faceDescent := fun _ => 1
  faceLineGap := fun _ => 0
  faceMmPerEm := fun _ => 1
  textWidth := fun _ gs => ((gs.map (fun g => (g.xAdvance : ℚ))).sum)
  glyphIndexHyphen := fun _ => 45
  glyphAdvance := fun _ _ => 1
  fontUPEM := fun _ => 1
  fontHheaDescender := fun _ => 0
  fontSxHeight := fun _ => 0

/-- The rich text of the scenario: the default face 1 and the single rune a. -/
def rtC2 : RichText :=
  writeChars rtE ['a']

/-- The single shaped glyph of the scenario. -/
def gA : Glyph :=
  { font := 1, size := 1, script := .latin, vertical := false, id := 97, cluster := 0,
    xAdvance := 1, yAdvance := 0, xOffset := 0, yOffset := 0, text := 'a' }

/-- The item stream of the scenario. -/
def c2Items : List Item :=
  [⟨.box, 1, 0, 0, 0, 1⟩, ⟨.penalty, 0, 0, 0, -Infinity, 0⟩]

theorem c2_runs : itemizeByFace envC2 rtC2 = [⟨['a'], .latin, some 1⟩] := by
  norm_num [itemizeByFace, itemizeByFaceGo, envC2, rtC2, rtE, writeChars, indexerIndex,
    flushSegment, faceAt, listSlice, ScriptItemizer, scriptItemizerGo, padStack]
  decide

theorem c2_shape :
    shapeAll envC2 rtC2 [⟨['a'], .latin, some 1⟩] =
      ⟨[0], [gA], [.leftToRight], [.no]⟩ := by
  norm_num [shapeAll, shapeAllGo, runBreakingGlyphs, shapedRunGlyphs, shapeRunBase,
    scriptDirection, envC2, rtC2, rtE, writeChars, charsWithBytePos, byteLen, gA,
    IsVerticalScript]
  decide

theorem c2_items : toTextItems envC2 rtC2 0 .left = c2Items := by
  rw [toTextItems, c2_runs, c2_shape]
  norm_num [envC2, specGlyphsToItems, gA, c2Items]
  decide

theorem c2_breaks : toTextBreaks envC2 c2Items 0 = ([⟨1, 1, 0⟩], false) := by
  norm_num [toTextBreaks, zeroWidthBreaks, zeroWidthGo, c2Items, Infinity]
  decide

theorem c2_coalesce : coalesce c2Items [⟨1, 1, 0⟩] = (c2Items, [⟨1, 1, 0⟩]) := by
  decide

/-- C2 (counterexample): with the box height smaller than one line (height
one half against unit ascent and descent), a zero target width and the text a,
ToText returns zero lines and empty text — but the overflow flag stays false:
the vertical-overflow branch (lines 772-781) never sets Overflows, which only
records horizontal breaking infeasibility (line 634). -/
theorem c2_overflow_flag_not_set :
    (toText envC2 rtC2 0 (1 / 2) .left .top 0 0).1.lines = [] ∧
    (toText envC2 rtC2 0 (1 / 2) .left .top 0 0).1.txt = [] ∧
    (toText envC2 rtC2 0 (1 / 2) .left .top 0 0).1.overflows = false := by
  have hsw : toTextSwap rtC2.mode 0 (1 / 2) TextAlign.left TextAlign.top =
      (0, 1 / 2, .left, .top) := by
    norm_num [toTextSwap, rtC2, rtE, writeChars]
  refine ⟨?_, ?_, ?_⟩ <;>
    simp only [toText, hsw, c2_runs, c2_shape, c2_items, c2_breaks, c2_coalesce] <;>
    norm_num [assembleGo, assembleStep, assembleBreak, assembleBox, assembleGlue,
      buildBoxGo, closeSegment, reorderLine, closeSpan, closeArr, closeWOF, breakSpanUpdates,
      breakHeights, breakAscDesc,
      lineHeights, bpAt, lineAt, modifyAt, modifyLast, mapWithIdx, listSlice,
      byteSlice, byteTake, byteDrop, faceAt, dirAt, rotAt, indexerIndex, scanFirst,
      reorderSpans, revRange, hyphenGlyph, objHeights, toTextPost, envC2, rtC2, rtE,
      writeChars, byteLen, c2Items, gA]

/-- C2 (amended): the overflow flag of a ToText result records only the
horizontal breaking outcome (infeasibility of Linebreak; always false for a
zero target width) — the vertical-overflow branch never touches it; and
whenever during line assembly the line would not fit the vertical box (height
nonzero and the accumulated y plus the line's stretched ascent and descent
exceeds it), the breakpoint branch discards the in-progress line and exits
the loop normally — the call never fails — cutting the stored text to the
byte prefix of the logical text ending at the cluster of the glyph at the
current index, which is the content through the END of the discarded line
(the whole text when the branch fires at the final sentinel break), not the
previous line's length; only on a first-line overflow (j = 0) does the text
become empty (with y reset). -/
theorem c2_vertical_overflow_truncates :
    (∀ (env : Env) (rt : RichText) (w h : ℚ) (ha va : TextAlign) (ind ls : ℚ),
       (toText env rt w h ha va ind ls).1.overflows =
         (toTextBreaks env (toTextItems env rt ind (toTextSwap rt.mode w h ha va).2.2.1)
            (toTextSwap rt.mode w h ha va).1).2) ∧
    (∀ (ctx : ACtx) (s : AState) (position : ℕ) (item : Item),
       ctx.height ≠ 0 →
       ctx.height < (breakSpanUpdates ctx s item).y +
         (breakAscDesc ctx (breakSpanUpdates ctx s item)).1 +
         (breakAscDesc ctx (breakSpanUpdates ctx s item)).2.1 →
       assembleBreak ctx s position item =
         ({ breakSpanUpdates ctx s item with
             lines := (breakSpanUpdates ctx s item).lines.dropLast,
             txt := if 0 < (breakSpanUpdates ctx s item).j then
                 byteTake ctx.log
                   ((breakSpanUpdates ctx s item).glyphsArr.getD
                     (breakSpanUpdates ctx s item).i default).cluster
               else [],
             y := if 0 < (breakSpanUpdates ctx s item).j then
                 (breakSpanUpdates ctx s item).y else 0 }, true)) := by
  constructor
  · intro env rt w h ha va ind ls
    rfl
  · intro ctx s position item h1 h2
    unfold assembleBreak
    rw [if_pos ⟨h1, h2⟩]

/-- The context of the amended claim's witness: the scenario environment and
run tables, a half-unit-high box. -/
def c2WCtx : ACtx :=
  ⟨envC2, .horizontalTB, .natural, 1, [], ['a'], [⟨['a'], .latin, some 1⟩],
   [0], [.leftToRight], [.no], 0, 1 / 2, .left, 1, 2⟩

/-- The state of the amended claim's witness: one empty line at the first
breakpoint. -/
def c2WS : AState :=
  ⟨[⟨0, []⟩], [], ['a'], [gA], [⟨1, 1, 0⟩], 0, 0, 0, 0⟩

/-- The committed first-line span of the second witness state: the glyph a. -/
def spA : TextSpan :=
  ⟨0, 1, 1, ['a'], [gA], .leftToRight, .no, []⟩

/-- The sentinel glyph appended after the shaped glyphs (line 725): its
cluster is the log's byte length. -/
def gEnd : Glyph :=
  { (default : Glyph) with cluster := 2 }

/-- The context of the amended claim's second witness state: the log a b over
one run, a half-unit-high box. -/
def c2WCtx2 : ACtx :=
  ⟨envC2, .horizontalTB, .natural, 1, [], ['a', 'b'], [⟨['a', 'b'], .latin, some 1⟩],
   [0], [.leftToRight], [.no], 0, 1 / 2, .left, 1, 3⟩

/-- The amended claim's second witness state, at the second breakpoint
(j = 1): the first line committed holding the span a, the second line in
progress having consumed the glyph b, the glyph index at the sentinel. -/
def c2WS2 : AState :=
  ⟨[⟨1, [spA]⟩, ⟨0, []⟩], [1], ['a', 'b'], [gA, gEnd], [⟨1, 1, 0⟩, ⟨2, 0, 0⟩], 1, 1, 0, 0⟩

/-- C2 (amended, witness): on a first-line overflow the text becomes empty;
on a second-line overflow the kept text is the log prefix at the sentinel
cluster — the whole log a b, including the discarded second line's b, not the
committed first line's a. -/
theorem c2_vertical_overflow_truncates_witness :
    ((toText envC2 rtC2 0 (1 / 2) .left .top 0 0).1.overflows =
       (toTextBreaks envC2
          (toTextItems envC2 rtC2 0 (toTextSwap rtC2.mode 0 (1 / 2) .left .top).2.2.1)
          (toTextSwap rtC2.mode 0 (1 / 2) .left .top).1).2) ∧
    assembleBreak c2WCtx c2WS 1 ⟨.penalty, 0, 0, 0, -Infinity, 0⟩ =
      ({ c2WS with lines := [], txt := [], y := 0 }, true) ∧
    assembleBreak c2WCtx2 c2WS2 2 ⟨.penalty, 0, 0, 0, -Infinity, 0⟩ =
      ({ c2WS2 with lines := [⟨1, [spA]⟩], txt := ['a', 'b'] }, true) := by
  refine ⟨?_, ?_, ?_⟩
  · exact c2_vertical_overflow_truncates.1 envC2 rtC2 0 (1 / 2) .left .top 0 0
  · have hb : breakSpanUpdates c2WCtx c2WS ⟨.penalty, 0, 0, 0, -Infinity, 0⟩ = c2WS := by
      norm_num [breakSpanUpdates, lineAt, c2WS]
    have := c2_vertical_overflow_truncates.2 c2WCtx c2WS 1 ⟨.penalty, 0, 0, 0, -Infinity, 0⟩
      (by norm_num [c2WCtx])
      (by rw [hb]
          norm_num [breakAscDesc, breakHeights, lineAt, c2WS, c2WCtx, envC2, faceAt,
            indexerIndex])
    rw [hb] at this
    rw [this]
    norm_num [c2WS]
  · have hb : breakSpanUpdates c2WCtx2 c2WS2 ⟨.penalty, 0, 0, 0, -Infinity, 0⟩ = c2WS2 := by
      norm_num [breakSpanUpdates, lineAt, c2WS2]
    have htxt : byteTake ['a', 'b'] 2 = ['a', 'b'] := by decide
    have h2 := c2_vertical_overflow_truncates.2 c2WCtx2 c2WS2 2
      ⟨.penalty, 0, 0, 0, -Infinity, 0⟩
      (by norm_num [c2WCtx2])
      (by rw [hb]
          norm_num [breakAscDesc, breakHeights, lineAt, c2WS2, c2WCtx2, envC2, faceAt,
            indexerIndex])
    rw [hb] at h2
    rw [h2]
    norm_num [c2WS2, c2WCtx2, gEnd, htxt]

/-! ## The directional reversal round trip (claim C1) -/

/-- The scenario environment with a right-to-left face: in a horizontal mode
scriptDirection passes the face direction through, and the scenario shaper
reports back the direction it is given. -/
def envC1 : Env :=
  { envC2 with faceDirection := fun _ => .rightToLeft }

/-- A two-rune run on face 1. -/
def runC1 : FaceRun :=
  ⟨['a', 'b'], .latin, some 1⟩

/-- The second shaped glyph of the C1 scenario. -/
def gB : Glyph :=
  { gA with id := 98, cluster := 1, text := 'b' }

/-- The assembly context of the C1 witness: one right-to-left run covering
both glyphs. -/
def ctxC1 : ACtx :=
  ⟨envC2, .horizontalTB, .natural, 1, [], ['a', 'b'], [⟨['a', 'b'], .latin, some 1⟩],
   [0], [.rightToLeft], [.no], 0, 0, .left, 1, 2⟩

/-- The assembly state of the C1 witness: one empty line, the glyph array
holding the run reversed for breaking. -/
def sC1 : AState :=
  ⟨[⟨0, []⟩], [], [], [gB, gA], [], 0, 0, 0, 0⟩

/-- The box item of the C1 witness: both glyphs in one box. -/
def itemC1 : Item :=
  ⟨.box, 2, 0, 0, 0, 2⟩

/-- C1: a run whose computed direction is right-to-left or bottom-to-top
contributes its shaped glyphs reversed to the line-breaking stream (lines
589-596), while any other run contributes them untouched; and during line
assembly, a maximal such run lying entirely within one box item on one line
is closed as a single span whose glyph list is exactly the shaper's original
sequence (lines 838-875) — the in-place reversal is undone exactly once, so
the span's glyph order and cluster values are identical to what an untouched
left-to-right run would carry. -/
theorem c1_rtl_reversal_roundtrip :
    (∀ (env : Env) (rt : RichText) (off : ℕ) (run : FaceRun),
       (shapedRunGlyphs env rt off run).2.1 = .rightToLeft ∨
         (shapedRunGlyphs env rt off run).2.1 = .bottomToTop →
       runBreakingGlyphs env rt off run = (shapedRunGlyphs env rt off run).1.reverse) ∧
    (∀ (env : Env) (rt : RichText) (off : ℕ) (run : FaceRun),
       ¬((shapedRunGlyphs env rt off run).2.1 = .rightToLeft ∨
         (shapedRunGlyphs env rt off run).2.1 = .bottomToTop) →
       runBreakingGlyphs env rt off run = (shapedRunGlyphs env rt off run).1) ∧
    (∀ (ctx : ACtx) (s : AState) (item : Item) (a₀ b₀ : ℕ) (k₀ : ℤ)
       (sList : List Glyph),
       s.i ≤ a₀ → a₀ < b₀ → b₀ ≤ s.i + item.size →
       (∀ g, a₀ ≤ g → g < b₀ → indexerIndex ctx.glyphIndices g = k₀) →
       (a₀ = s.i ∨ indexerIndex ctx.glyphIndices (a₀ - 1) ≠ k₀) →
       (b₀ = s.i + item.size ∨ indexerIndex ctx.glyphIndices b₀ ≠ k₀) →
       (dirAt ctx.directions k₀ = .rightToLeft ∨
         dirAt ctx.directions k₀ = .bottomToTop) →
       s.j < s.lines.length → b₀ ≤ s.glyphsArr.length →
       listSlice s.glyphsArr a₀ b₀ = revSwap sList →
       ∃ sp ∈ (lineAt (assembleBox ctx s item).lines s.j).spans,
         sp.glyphs = sList ∧ sp.direction = dirAt ctx.directions k₀) := by
  refine ⟨?_, ?_, ?_⟩
  · intro env rt off run h
    simp only [runBreakingGlyphs]
    rw [if_pos h, revSwap_eq_reverse]
  · intro env rt off run h
    simp only [runBreakingGlyphs]
    rw [if_neg h]
  · intro ctx s item a₀ b₀ k₀ sList h1 h2 h3 h4 h5 h6 h7 h8 h9 h10
    exact assembleBox_rtl ctx s item a₀ b₀ k₀ sList h1 h2 h3 h4 h5 h6 h7 h8 h9 h10

/-- C1 (witness): the two-glyph right-to-left run is reversed for breaking,
and the box branch, fed the reversed array, emits one span carrying the
shaper's original order with its original cluster values. -/
theorem c1_rtl_reversal_roundtrip_witness :
    ((shapedRunGlyphs envC1 rtC2 0 runC1).2.1 = .rightToLeft ∧
      runBreakingGlyphs envC1 rtC2 0 runC1 =
        (shapedRunGlyphs envC1 rtC2 0 runC1).1.reverse) ∧
    (listSlice sC1.glyphsArr 0 2 = revSwap [gA, gB] ∧
      ∃ sp ∈ (lineAt (assembleBox ctxC1 sC1 itemC1).lines sC1.j).spans,
        sp.glyphs = [gA, gB] ∧ sp.direction = dirAt ctxC1.directions 0) := by
  refine ⟨⟨by decide, ?_⟩, by decide, ?_⟩
  · exact c1_rtl_reversal_roundtrip.1 envC1 rtC2 0 runC1 (Or.inl (by decide))
  · exact c1_rtl_reversal_roundtrip.2.2 ctxC1 sC1 itemC1 0 2 0 [gA, gB]
      (by decide) (by decide) (by decide)
      (fun g _ hg => by interval_cases g <;> decide)
      (Or.inl (by decide)) (Or.inl (by decide)) (Or.inl (by decide))
      (by decide) (by decide) (by decide)

/-- C9: ToText does not mutate its receiver — every access to the rich text
in the embedded pipeline is a read, and the receiver returned alongside the
Text value is the input itself, for every environment, state and argument
combination. -/
theorem c9_toText_receiver_unchanged (env : Env) (rt : RichText) (w h : ℚ)
    (ha va : TextAlign) (ind ls : ℚ) :
    (toText env rt w h ha va ind ls).2 = rt :=
  rfl

end Canvas
